import Mathlib

/-!
# Verification of the jsonapi-query-parser request parser

Shallow embedding of `src/JsonApiQueryParser.js` (the current version of the
class, the one exercised by the test suite: endpoint resolver, query fragment
dispatcher, family parsers, filter/or parsers, trimSlashes, deepMerge).

Strings are processed as `List Char`; every definition is executable and
structurally mirrors the JavaScript source.  JavaScript regular-expression
tests and capture extractions are modelled by explicit matching functions
that reproduce the lazy-quantifier/backtracking behaviour of the concrete
patterns in `PARSE_PARAM` (documented at each definition).  The three ways
the source can throw are modelled by `JsErr`:
`ReferenceError('Request missing relationship type')`, `URIError` from
`decodeURIComponent`, and `TypeError` from strict-mode property writes on
string primitives.
-/

namespace JsonApi

/-- The three runtime failures reachable from `parseRequest`. -/
inductive JsErr where
  | missingRelationshipType
  | uriError
  | typeError
deriving Repr, DecidableEq

/-- JavaScript values that can appear inside the `filter` object:
strings, plain objects (insertion-ordered key/value lists) and arrays
(possibly sparse, `none` = hole/`undefined`). -/
inductive JVal where
  | str : String → JVal
  | obj : List (String × JVal) → JVal
  | arr : List (Option JVal) → JVal
deriving Repr

abbrev JObj := List (String × JVal)

/-! ## Insertion-ordered association lists (JS object semantics) -/

/-- Property read, `o[k]`: `none` models `undefined`. -/
def aGet {α : Type} (o : List (String × α)) (k : String) : Option α :=
  match o.find? (fun p => p.1 == k) with
  | some p => some p.2
  | none => none

/-- Property write, `o[k] = v`: updates in place, appends when absent
(JS insertion order). -/
def aSet {α : Type} (o : List (String × α)) (k : String) (v : α) :
    List (String × α) :=
  if (o.find? (fun p => p.1 == k)).isSome then
    o.map (fun p => if p.1 == k then (k, v) else p)
  else o ++ [(k, v)]

def objGet (o : JObj) (k : String) : Option JVal := aGet o k

def objSet (o : JObj) (k : String) (v : JVal) : JObj := aSet o k v

/-- Sparse-array element read `el[i]` (`none` = `undefined`,
covering both holes and out-of-range reads). -/
def arrGet (el : List (Option JVal)) (i : Nat) : Option JVal :=
  (el.getD i none)

/-- Sparse-array element write `el[i] = v`, extending with holes
exactly as JS assignment beyond `length` does. -/
def arrSet (el : List (Option JVal)) (i : Nat) (v : JVal) :
    List (Option JVal) :=
  if i < el.length then el.set i (some v)
  else el ++ List.replicate (i - el.length) none ++ [some v]

/-- JS truthiness of the values that can sit in a filter object:
`""` is falsy, every other string, object and array is truthy. -/
def jsTruthy : JVal → Bool
  | .str s => !s.data.isEmpty
  | .obj _ => true
  | .arr _ => true

/-! ## Character helpers for the regex semantics -/

/-- ECMAScript line terminators — the characters `.` does not match. -/
def lineTerm (c : Char) : Bool :=
  c == '\n' || c == '\r' || c == '\u2028' || c == '\u2029'

/-- ASCII lower-casing, the case folding performed by the `/i` flag on the
ASCII pattern literals used in `PARSE_PARAM` (non-ASCII characters never
match an ASCII pattern letter without the `u` flag). -/
def lowerChar (c : Char) : Char :=
  if 'A' ≤ c && c ≤ 'Z' then Char.ofNat (c.toNat + 32) else c

/-- Case-insensitive prefix test against a lowercase ASCII pattern. -/
def ciStarts : List Char → List Char → Bool
  | [], _ => true
  | _ :: _, [] => false
  | p :: ps, c :: cs => lowerChar c == p && ciStarts ps cs

/-- Case-insensitively strip a lowercase ASCII pattern prefix. -/
def ciStrip : List Char → List Char → Option (List Char)
  | [], s => some s
  | _ :: _, [] => none
  | p :: ps, c :: cs => if lowerChar c == p then ciStrip ps cs else none

/-- Literal prefix test. -/
def startsWithL : List Char → List Char → Bool
  | [], _ => true
  | _ :: _, [] => false
  | p :: ps, c :: cs => p == c && startsWithL ps cs

/-- Split at the first occurrence of a (non-empty) literal substring:
`some (before, after)` with the substring removed. -/
def breakSub (pat : List Char) : List Char → Option (List Char × List Char)
  | [] => none
  | c :: t =>
    if startsWithL pat (c :: t) then some ([], (c :: t).drop pat.length)
    else match breakSub pat t with
      | some (a, b) => some (c :: a, b)
      | none => none

/-- Split at the first occurrence of a character (removed). -/
def breakChar (ch : Char) : List Char → Option (List Char × List Char)
  | [] => none
  | c :: t =>
    if c == ch then some ([], t)
    else match breakChar ch t with
      | some (a, b) => some (c :: a, b)
      | none => none

/-- JS `String.prototype.split` with a one-character separator
(`"".split` yields `[""]`, like `splitOn`). -/
def splitOnCharL (sep : Char) : List Char → List (List Char)
  | [] => [[]]
  | c :: t =>
    match splitOnCharL sep t with
    | [] => [[]]
    | h :: r => if c == sep then [] :: h :: r else (c :: h) :: r

/-- `parseInt` on a digit string. -/
def digitsToNat (ds : List Char) : Nat :=
  ds.foldl (fun n c => 10 * n + (c.toNat - '0'.toNat)) 0

/-! ## The `PARSE_PARAM` regular expressions

Each JS pattern is modelled by a matching function returning its capture
groups; `isSome` is `RegExp.prototype.test`.  Lazy quantifiers anchored on
both sides resolve to "first occurrence" splits; `.` refuses line
terminators; negated character classes (`[^\]]`, `[^or]`) accept them. -/

/-- `/^include\=(.*?)/i` — a test-only pattern: it matches exactly when the
fragment starts (case-insensitively) with `include=`. -/
def testInclude (l : List Char) : Bool := ciStarts "include=".data l

/-- `/^sort\=(.*?)/i`. -/
def testSort (l : List Char) : Bool := ciStarts "sort=".data l

/-- `/^fields\[(.*?)\]\=.*?$/i` — capture `$1`, the text between `fields[`
and the first `]=`.  Both `(.*?)` and `.*?$` are `.`-based, so the whole
remainder must be free of line terminators. -/
def matchFields (l : List Char) : Option (List Char) :=
  match ciStrip "fields[".data l with
  | some rest =>
    if rest.all (fun d => !lineTerm d) then (breakSub (']' :: ['=']) rest).map (fun p => p.1)
    else none
  | none => none

/-- `/^page\[(.*?)\]\=.*?$/i` — same shape as `matchFields`. -/
def matchPage (l : List Char) : Option (List Char) :=
  match ciStrip "page[".data l with
  | some rest =>
    if rest.all (fun d => !lineTerm d) then (breakSub (']' :: ['=']) rest).map (fun p => p.1)
    else none
  | none => none

/-- `/^filter\[([^\]]*?)\]\=.*?$/i` — capture `$1`, the (possibly
line-terminator-containing) text before the first `]`, which must be
followed directly by `=`; the rest must be `.`-matchable. -/
def matchPlainFilter (l : List Char) : Option (List Char) :=
  match ciStrip "filter[".data l with
  | some rest =>
    match breakChar ']' rest with
    | some (a, '=' :: b) => if b.all (fun d => !lineTerm d) then some a else none
    | _ => none
  | none => none

/-- The value-extraction patterns `/^fields.*?\=(.*?)$/i`,
`/^page.*?\=(.*?)$/i`, `/^filter.*?\=(.*?)$/i`: after the literal prefix,
scan (through `.`-matchable characters only) for the first `=` whose
remainder is `.`-matchable to the end; capture that remainder. -/
def afterEqOk : List Char → Option (List Char)
  | [] => none
  | c :: t =>
    if lineTerm c then none
    else if c == '=' && t.all (fun d => !lineTerm d) then some t
    else afterEqOk t

def matchValueAfter (pre : List Char) (l : List Char) : Option (List Char) :=
  (ciStrip pre l).bind afterEqOk

/-- Backtracking search for the suffix `.*?\]\[(.*?)\]\=(.*?)$` of the
`parseFilterType` pattern: walk (through `.`-matchable characters) to each
`][` in turn; at the first one whose tail is line-terminator-free and
contains `]=`, capture (walked prefix, text before the first `]=`, rest). -/
def ftSearch : List Char → Option (List Char × List Char × List Char)
  | [] => none
  | c :: t =>
    if startsWithL (']' :: ['[']) (c :: t)
        && (t.drop 1).all (fun d => !lineTerm d)
        && (breakSub (']' :: ['=']) (t.drop 1)).isSome then
      match breakSub (']' :: ['=']) (t.drop 1) with
      | some (b, v) => some ([], b, v)
      | none => none
    else if lineTerm c then none
    else (ftSearch t).map (fun r => (c :: r.1, r.2.1, r.2.2))

/-- `/^filter\[([^or].*?)\]\[(.*?)\]\=(.*?)$/i` — captures
`($1, $2, $3)`.  The negated class `[^or]` (case-insensitive) rejects a
first character `o`/`O`/`r`/`R` but accepts anything else. -/
def matchFilterType (l : List Char) :
    Option (List Char × List Char × List Char) :=
  match ciStrip "filter[".data l with
  | some (c0 :: r1) =>
    if c0 == 'o' || c0 == 'O' || c0 == 'r' || c0 == 'R' then none
    else (ftSearch r1).map (fun r => (c0 :: r.1, r.2.1, r.2.2))
  | _ => none

/-- First alternative `\[[^or].*?\]\[.*?\]\=.*?` of the OR pattern's
suffix group (anchored by the final `$`). -/
def alt1Ok : List Char → Bool
  | '[' :: c0 :: r1 =>
    !(c0 == 'o' || c0 == 'O' || c0 == 'r' || c0 == 'R') && (ftSearch r1).isSome
  | _ => false

/-- Second alternative `\[[^\]]*?\]\=.*?` of the OR pattern's suffix
group. -/
def alt2Ok : List Char → Bool
  | '[' :: r =>
    match breakChar ']' r with
    | some (_, '=' :: b) => b.all (fun d => !lineTerm d)
    | _ => false
  | _ => false

/-- `/^filter\[or\]\[(\d+)\](\[[^or].*?\]\[.*?\]\=.*?|\[[^\]]*?\]\=.*?){1}$/i`
— captures `(parseInt($1), $2)`; because the group is anchored between the
index's `]` and `$`, `$2` is the entire remaining suffix. -/
def matchFilterWithOr (l : List Char) : Option (Nat × List Char) :=
  match ciStrip "filter[or][".data l with
  | some rest =>
    let ds := rest.takeWhile Char.isDigit
    if ds.isEmpty then none
    else match rest.drop ds.length with
      | ']' :: tail2 =>
        if alt1Ok tail2 || alt2Ok tail2 then some (digitsToNat ds, tail2)
        else none
      | _ => none
  | none => none

/-! ## `decodeURIComponent`

Modelled from ECMAScript `Decode` as engines implement it: `%hh` escapes
are decoded to bytes, byte sequences are strict-UTF-8 decoded (overlong
encodings, surrogates, out-of-range code points and malformed escapes all
throw `URIError`). -/

/-- Value of one hexadecimal digit (`0-9`, `a-f`, `A-F`). -/
def hexVal (c : Char) : Option Nat :=
  let n := c.toNat
  if 48 ≤ n && n ≤ 57 then some (n - 48)
  else if 97 ≤ n && n ≤ 102 then some (n - 87)
  else if 65 ≤ n && n ≤ 70 then some (n - 55)
  else none

/-- A lexed URI component: literal characters and `%hh` bytes. -/
inductive UriTok where
  | ch : Char → UriTok
  | byte : Nat → UriTok
deriving Repr

def uriLex : List Char → Except JsErr (List UriTok)
  | [] => .ok []
  | '%' :: h1 :: h2 :: t =>
    match hexVal h1, hexVal h2 with
    | some a, some b => (uriLex t).map (UriTok.byte (16 * a + b) :: ·)
    | _, _ => .error .uriError
  | '%' :: _ => .error .uriError
  | c :: t => (uriLex t).map (UriTok.ch c :: ·)

/-- Continuation byte (`10xxxxxx`) payload. -/
def contVal : UriTok → Option Nat
  | .byte b => if 0x80 ≤ b && b < 0xC0 then some (b % 0x40) else none
  | _ => none

/-- Strict UTF-8 validity of a code point decoded from `n` bytes. -/
def validCp (n : Nat) (v : Nat) : Bool :=
  let minv := if n == 2 then 0x80 else if n == 3 then 0x800 else 0x10000
  minv ≤ v && v ≤ 0x10FFFF && !(0xD800 ≤ v && v ≤ 0xDFFF)

def uriAssemble : List UriTok → Except JsErr (List Char)
  | [] => .ok []
  | .ch c :: t => (uriAssemble t).map (c :: ·)
  | .byte b :: t =>
    if b < 0x80 then (uriAssemble t).map (Char.ofNat b :: ·)
    else if b < 0xC0 then .error .uriError
    else if b < 0xE0 then
      match t with
      | t1 :: t' =>
        match contVal t1 with
        | some v1 =>
          let v := b % 0x20 * 0x40 + v1
          if validCp 2 v then (uriAssemble t').map (Char.ofNat v :: ·)
          else .error .uriError
        | none => .error .uriError
      | [] => .error .uriError
    else if b < 0xF0 then
      match t with
      | t1 :: t2 :: t' =>
        match contVal t1, contVal t2 with
        | some v1, some v2 =>
          let v := b % 0x10 * 0x1000 + v1 * 0x40 + v2
          if validCp 3 v then (uriAssemble t').map (Char.ofNat v :: ·)
          else .error .uriError
        | _, _ => .error .uriError
      | _ => .error .uriError
    else if b < 0xF8 then
      match t with
      | t1 :: t2 :: t3 :: t' =>
        match contVal t1, contVal t2, contVal t3 with
        | some v1, some v2, some v3 =>
          let v := b % 0x8 * 0x40000 + v1 * 0x1000 + v2 * 0x40 + v3
          if validCp 4 v then (uriAssemble t').map (Char.ofNat v :: ·)
          else .error .uriError
        | _, _, _ => .error .uriError
      | _ => .error .uriError
    else .error .uriError

def decodeURIComponent (s : String) : Except JsErr String := do
  let toks ← uriLex s.data
  let cs ← uriAssemble toks
  .ok (String.mk cs)

/-! ## `trimSlashes`

`input.replace(/(^\/)|(\/$)/, '')` removes the first match only: a leading
slash when present, otherwise a trailing one; the source recurses while the
pattern still matches. -/

/-- One recursion layer per unit of `fuel`; each recursive call removes a
character, so `fuel = l.length` (see `trimSlashesL`) always suffices, which
keeps the recursion structural (and hence kernel-computable). -/
def trimSlashesGo : Nat → List Char → List Char
  | 0, l => l
  | fuel + 1, l =>
    match l with
    | [] => []
    | c :: t =>
      if c == '/' then trimSlashesGo fuel t
      else if (c :: t).getLast? == some '/' then
        trimSlashesGo fuel ((c :: t).dropLast)
      else c :: t

def trimSlashesL (l : List Char) : List Char := trimSlashesGo l.length l

def trimSlashes (input : String) : String := String.mk (trimSlashesL input.data)

/-! ## The request/query descriptors -/

/-- `requestData.queryData` — `incl` renders the JS field `include`
(a Lean keyword). -/
structure QueryData where
  incl : List String
  fields : List (String × List String)
  sort : List String
  page : List (String × String)
  filter : JObj
deriving Repr

/-- The top-level `requestData` object ( `none` models JS `null`). -/
structure RequestData where
  resourceType : Option String
  identifier : Option String
  relationships : Bool
  relationshipType : Option String
  queryData : QueryData
deriving Repr

/-- The `filter` seed built in `parseRequest`. -/
def initFilter : JObj :=
  [("or", .arr []), ("like", .obj []), ("not", .obj []),
   ("lt", .obj []), ("lte", .obj []), ("gt", .obj []), ("gte", .obj [])]

def initQueryData : QueryData :=
  { incl := [], fields := [], sort := [], page := [], filter := initFilter }

def initRequestData : RequestData :=
  { resourceType := none, identifier := none, relationships := false,
    relationshipType := none, queryData := initQueryData }

/-- The fresh `subFilterInitialSet.filter` built inside `parseFilterWithOr`
(six operator maps, no `or` key). -/
def innerFilterSeed : JObj :=
  [("like", .obj []), ("not", .obj []),
   ("lt", .obj []), ("lte", .obj []), ("gt", .obj []), ("gte", .obj [])]

/-! ## `deepMerge`

`deepMerge(target, source)` iterates `Object.keys(source)`; a non-array
object value recurses after seeding `target[key]` with `{}` when absent; any
other value is assigned.  In strict mode a property write on a string
primitive throws `TypeError`.  Enumerating a string source yields its
index/character pairs; enumerating an array yields its present elements. -/

/-- `target[k] = v` for a non-object (or array) source value. -/
def assignKey (t : JVal) (k : String) (v : JVal) : Except JsErr JVal :=
  match t with
  | .obj e => .ok (.obj (objSet e k v))
  | .str _ => .error .typeError
  | .arr el =>
    match k.toNat? with
    | some i => .ok (.arr (arrSet el i v))
    | none => .ok (.arr el)

/-- Assign a list of scalar key/value pairs in order (the string-source
enumeration; its values are one-character strings, never objects). -/
def assignAll (t : JVal) : List (String × JVal) → Except JsErr JVal
  | [] => .ok t
  | (k, v) :: rest => do
    let t' ← assignKey t k v
    assignAll t' rest

/-- Index/character enumeration of a string (`Object.keys` on a string). -/
def strEntries (st : String) : List (String × JVal) :=
  st.data.enum.map (fun p => (toString p.1, JVal.str (String.mk [p.2])))

mutual

def deepMerge (t s : JVal) : Except JsErr JVal :=
  match s with
  | .obj entries => mergeEntries t entries
  | .str st => assignAll t (strEntries st)
  | .arr el => mergeArr t el 0

def mergeEntries (t : JVal) : List (String × JVal) → Except JsErr JVal
  | [] => .ok t
  | (k, v) :: rest => do
    let t' ← mergeStep t k v
    mergeEntries t' rest

def mergeStep (t : JVal) (k : String) (v : JVal) : Except JsErr JVal :=
  match v with
  | .obj inner =>
    match t with
    | .obj e =>
      let cur := match objGet e k with
        | some c => c
        | none => .obj []
      do
        let m ← mergeEntries cur inner
        .ok (.obj (objSet e k m))
    | .str _ => .error .typeError
    | .arr el =>
      match k.toNat? with
      | some i =>
        let cur := match arrGet el i with
          | some c => c
          | none => .obj []
        do
          let m ← mergeEntries cur inner
          .ok (.arr (arrSet el i m))
      | none => .ok (.arr el)
  | _ => assignKey t k v

def mergeArr (t : JVal) : List (Option JVal) → Nat → Except JsErr JVal
  | [], _ => .ok t
  | none :: rest, i => mergeArr t rest (i + 1)
  | some v :: rest, i => do
    let t' ← mergeStep t (toString i) v
    mergeArr t' rest (i + 1)

end

/-! ## The per-family parsers (the `static` functions of the class) -/

/-- `parseInclude`: `includeString.split('=')[1].split(',')` replaces the
`include` list (call sites guard on the `include=` prefix, so index 1
exists). -/
def parseInclude (includeString : String) (d : QueryData) : QueryData :=
  let targetString := (splitOnCharL '=' includeString.data).getD 1 []
  { d with incl := (splitOnCharL ',' targetString).map String.mk }

/-- `parseSort`: same extraction as `parseInclude`, replacing `sort`. -/
def parseSort (sortString : String) (d : QueryData) : QueryData :=
  let targetString := (splitOnCharL '=' sortString.data).getD 1 []
  { d with sort := (splitOnCharL ',' targetString).map String.mk }

/-- The string-keyed own properties of a pristine `Object.prototype`
(Node/V8).  A guard such as `if (obj[key])` reads through the prototype
chain, so when the own property is absent these names still produce a
truthy value: eleven builtin functions, plus the `__proto__` accessor whose
getter returns `Object.prototype` itself.  (The model assumes the pristine
prototype objects on entry and does not track their mutation: a successful
write through the chain lands on a shared object outside the descriptor,
and within one parse its only cross-fragment effect is to turn later guard
misses into additional strict-mode `TypeError`s.) -/
def protoLookup (k : String) : Bool :=
  k == "constructor" || k == "__defineGetter__" || k == "__defineSetter__"
    || k == "hasOwnProperty" || k == "__lookupGetter__"
    || k == "__lookupSetter__" || k == "isPrototypeOf"
    || k == "propertyIsEnumerable" || k == "toString" || k == "valueOf"
    || k == "__proto__" || k == "toLocaleString"

/-- Whether the strict-mode write `Object.prototype[op][col] = <string>`
throws after a prototype-chain guard hit on `op`.  For the function-valued
properties the own `name` and `length` are non-writable and `caller` and
`arguments` hit the poison-pill accessors of `Function.prototype`, all
four throwing `TypeError`; `constructor` (the `Object` function)
additionally carries a non-writable own `prototype`.  Writes through
`__proto__` land on `Object.prototype` itself, whose string-keyed own
properties are all writable data (and whose `__proto__` setter silently
ignores a string value), so they never throw. -/
def protoWriteThrows (op col : String) : Bool :=
  if op == "__proto__" then false
  else
    col == "name" || col == "length" || col == "caller"
      || col == "arguments" || (op == "constructor" && col == "prototype")

/-- `parseFields`: resource name from the `parseFields` pattern, value from
`/^fields.*?\=(.*?)$/i` (a failed `replace` keeps the whole fragment).
The guard `!fields[targetResource]` reads through the prototype chain: an
absent own property naming an `Object.prototype` member yields the truthy
inherited function (or, for `__proto__`, `Object.prototype` itself), the
conditional reassignment keeps it, and the `.push` call on a non-array then
throws `TypeError`.  Otherwise values are appended to the (lazily created)
per-resource own list. -/
def parseFields (fieldsString : String) (d : QueryData) :
    Except JsErr QueryData :=
  let l := fieldsString.data
  let targetResource := match matchFields l with
    | some r => String.mk r
    | none => fieldsString
  let targetFieldsString := match matchValueAfter "fields".data l with
    | some v => v
    | none => l
  if (aGet d.fields targetResource).isNone && protoLookup targetResource then
    .error .typeError
  else
    let cur := (aGet d.fields targetResource).getD []
    let targetFields := (splitOnCharL ',' targetFieldsString).map String.mk
    .ok { d with fields := aSet d.fields targetResource (cur ++ targetFields) }

/-- `parsePage`: key from the `parsePage` pattern, raw (un-split) value from
`/^page.*?\=(.*?)$/i`; last write wins per key. -/
def parsePage (pageString : String) (d : QueryData) : QueryData :=
  let l := pageString.data
  let pageSettingKey := match matchPage l with
    | some r => String.mk r
    | none => pageString
  let pageSettingValue := match matchValueAfter "page".data l with
    | some v => String.mk v
    | none => pageString
  { d with page := aSet d.page pageSettingKey pageSettingValue }

/-- `parseFilter` on a bare filter object: `filter[targetColumn] =
targetFilterString` (an equality entry; it can overwrite one of the seeded
operator maps when the column carries a reserved name). -/
def parseFilterCore (filterString : String) (f : JObj) : JObj :=
  let l := filterString.data
  let targetColumn := match matchPlainFilter l with
    | some a => String.mk a
    | none => filterString
  let targetFilterString := match matchValueAfter "filter".data l with
    | some v => String.mk v
    | none => filterString
  objSet f targetColumn (.str targetFilterString)

def parseFilter (filterString : String) (d : QueryData) : QueryData :=
  { d with filter := parseFilterCore filterString d.filter }

/-- `parseFilterType` on a bare filter object: guarded by the truthiness of
`filter[targetType]`, a read through the prototype chain.  An own string
value is truthy when non-empty, and writing through a string primitive
throws in strict mode.  When the own property is absent an
`Object.prototype` member still passes the guard: the write then lands on
the truthy inherited value, throwing `TypeError` on the non-writable or
poisoned function properties (`protoWriteThrows`) and otherwise mutating
the shared object outside the descriptor, which is returned unchanged.
(On a failed match every `replace` returns the whole fragment; an array
value can only arise from a direct call with the literal fragment `or`,
where JS would attach a non-index expando property that no reader
observes — modelled as the element write / no-op below.) -/
def parseFilterTypeCore (filterString : String) (f : JObj) :
    Except JsErr JObj :=
  let l := filterString.data
  let caps := match matchFilterType l with
    | some (a, b, c) => (String.mk a, String.mk b, String.mk c)
    | none => (filterString, filterString, filterString)
  let targetType := caps.1
  let targetColumn := caps.2.1
  let targetFilterString := caps.2.2
  match objGet f targetType with
  | none =>
    if protoLookup targetType then
      if protoWriteThrows targetType targetColumn then .error .typeError
      else .ok f
    else .ok f
  | some v0 =>
    if jsTruthy v0 then
      match v0 with
      | .obj e =>
        .ok (objSet f targetType (.obj (objSet e targetColumn (.str targetFilterString))))
      | .str _ => .error .typeError
      | .arr el =>
        match targetColumn.toNat? with
        | some i => .ok (objSet f targetType (.arr (arrSet el i (.str targetFilterString))))
        | none => .ok f
    else .ok f

def parseFilterType (filterString : String) (d : QueryData) :
    Except JsErr QueryData :=
  (parseFilterTypeCore filterString d.filter).map
    (fun f => { d with filter := f })

/-- The tail of `parseFilterWithOr`: place or deep-merge the freshly parsed
sub-filter at `filter.or[index]` (see `parseFilterWithOr` for the strict-mode
failure modes mirrored here). -/
def orInsert (d : QueryData) (index : Nat) (inner : JObj) :
    Except JsErr QueryData :=
  match objGet d.filter "or" with
  | some (.arr el) =>
    match arrGet el index with
    | none =>
      .ok { d with filter := objSet d.filter "or" (.arr (arrSet el index (.obj inner))) }
    | some cur => do
      let m ← deepMerge cur (.obj inner)
      .ok { d with filter := objSet d.filter "or" (.arr (arrSet el index m)) }
  | some (.str st) =>
    if index < st.length then do
      let _ ← deepMerge (.str (String.mk [st.data.getD index ' '])) (.obj inner)
      .error .typeError
    else .error .typeError
  | some (.obj oe) =>
    match objGet oe (toString index) with
    | none =>
      .ok { d with filter := objSet d.filter "or" (.obj (objSet oe (toString index) (.obj inner))) }
    | some cur => do
      let m ← deepMerge cur (.obj inner)
      .ok { d with filter := objSet d.filter "or" (.obj (objSet oe (toString index) m)) }
  | none => .error .typeError

/-- `parseFilterWithOr`: re-synthesise `filter<fragment>`, parse it against a
fresh six-map seed, then either place the result at `or[index]` or deep-merge
it into the existing entry.  When `filter.or` has been overwritten to a
string primitive, every continuation of the source throws `TypeError` in
strict mode (either the inner `deepMerge` onto a character, or the element
write itself); `filter.or` missing altogether means reading `[index]` of
`undefined`.  (An unmatched fragment — impossible through the dispatcher,
which just tested this very pattern — would compute `parseInt(NaN)` and
attach a `NaN`-keyed expando no reader observes; modelled as the identity.) -/
def parseFilterWithOr (filterString : String) (d : QueryData) :
    Except JsErr QueryData :=
  match matchFilterWithOr filterString.data with
  | none => .ok d
  | some (index, frag) =>
    let subFilterString := String.mk ("filter".data ++ frag)
    let innerRes : Except JsErr JObj :=
      if (matchPlainFilter subFilterString.data).isSome then
        .ok (parseFilterCore subFilterString innerFilterSeed)
      else parseFilterTypeCore subFilterString innerFilterSeed
    do
      let inner ← innerRes
      orInsert d index inner

/-! ## Dispatcher and entry points -/

/-- One step of the `PARSE_PARAM` loop: apply a (pure) parser when its
pattern test succeeded. -/
def applyIf (c : Bool) (F : QueryData → QueryData) (d : QueryData) :
    QueryData :=
  if c then F d else d

/-- One step of the `PARSE_PARAM` loop for a parser that can throw. -/
def applyIfE (c : Bool) (F : QueryData → Except JsErr QueryData)
    (d : QueryData) : Except JsErr QueryData :=
  if c then F d else .ok d

/-- `delegateToParser`: test the fragment against every `PARSE_PARAM`
pattern in declaration order and apply each matching parser. -/
def delegateToParser (query : String) (d0 : QueryData) :
    Except JsErr QueryData := do
  let l := query.data
  let d1 := applyIf (testInclude l) (parseInclude query) d0
  let d2 ← applyIfE (matchFields l).isSome (parseFields query) d1
  let d3 := applyIf (matchPage l).isSome (parsePage query) d2
  let d4 := applyIf (testSort l) (parseSort query) d3
  let d5 := applyIf (matchPlainFilter l).isSome (parseFilter query) d4
  let d6 ← applyIfE (matchFilterType l).isSome (parseFilterType query) d5
  let d7 ← applyIfE (matchFilterWithOr l).isSome (parseFilterWithOr query) d6
  .ok d7

/-- `parseQueryParameters`: split on `&`, percent-decode every fragment
(decoding all of them before any is delegated), then fold the dispatcher. -/
def parseQueryParameters (queryString : String) (d : QueryData) :
    Except JsErr QueryData := do
  let querySplit := (splitOnCharL '&' queryString.data).map String.mk
  let decoded ← querySplit.mapM decodeURIComponent
  decoded.foldlM (fun acc q => delegateToParser q acc) d

/-- `parseEndpoint`: trim slashes, split on `/`, fill the endpoint fields;
`.../relationships` with a missing or empty fourth segment throws the
`ReferenceError`. -/
def parseEndpoint (endpointString : String) (requestObject : RequestData) :
    Except JsErr RequestData :=
  let requestSplit := (splitOnCharL '/' (trimSlashesL endpointString.data)).map String.mk
  let resourceType := requestSplit.getD 0 ""
  let identifier := requestSplit.get? 1
  let relationships := match requestSplit.get? 2 with
    | some s => String.mk (s.data.map lowerChar) == "relationships"
    | none => false
  if relationships then
    match requestSplit.get? 3 with
    | none => .error .missingRelationshipType
    | some s =>
      if s.data.isEmpty then .error .missingRelationshipType
      else .ok { requestObject with
        resourceType := some resourceType, identifier := identifier,
        relationships := true, relationshipType := some s }
  else
    .ok { requestObject with
      resourceType := some resourceType, identifier := identifier,
      relationships := false,
      relationshipType := if requestSplit.length == 3 then requestSplit.get? 2 else none }

/-- `parseRequest`: split the URL on `?` (only `urlSplit[0]` and a truthy
`urlSplit[1]` are used), resolve the endpoint, then parse the query. -/
def parseRequest (url : String) : Except JsErr RequestData := do
  let urlSplit := (splitOnCharL '?' url.data).map String.mk
  let rd ← parseEndpoint (urlSplit.getD 0 "") initRequestData
  match urlSplit.get? 1 with
  | some q =>
    if q.data.isEmpty then .ok rd
    else do
      let qd ← parseQueryParameters q rd.queryData
      .ok { rd with queryData := qd }
  | none => .ok rd

/-! # Theorems -/

set_option maxRecDepth 10000

/-- The fully parsed descriptor for the end-to-end example URL. -/
def c1Expected : RequestData :=
  { resourceType := some "article", identifier := some "5",
    relationships := true, relationshipType := some "comment",
    queryData :=
      { incl := ["user", "testComment"],
        fields := [("user", ["name", "email"])],
        sort := ["Age", "firstName"],
        page := [("limit", "20")],
        filter :=
          [("or", .arr []), ("like", .obj []), ("not", .obj []),
           ("lt", .obj []), ("lte", .obj []),
           ("gt", .obj [("age", .str "17")]), ("gte", .obj []),
           ("name", .str "john doe")] } }

/-- C1: `parseRequest` on the exact URL
`//article/5/relationships/comment?include=user,testComment&sort=Age%2CfirstName&fields[user]=name,email&page[limit]=20&filter[name]=john%20doe&filter[gt][age]=17`
returns resourceType `article`, identifier `5`, a relationship request of
type `comment`, include `[user, testComment]`, sort `[Age, firstName]`,
fields `user ↦ [name, email]`, page `limit ↦ 20`, the equality filter
`name = "john doe"`, the `gt` filter `age = "17"`, and every other operator
map (and the `or` array) empty. -/
theorem parseRequest_end_to_end :
    parseRequest "//article/5/relationships/comment?include=user,testComment&sort=Age%2CfirstName&fields[user]=name,email&page[limit]=20&filter[name]=john%20doe&filter[gt][age]=17"
      = Except.ok c1Expected := by
  rfl

/-- The accumulated or-group entry after the two C4 fragments. -/
def c4Expected : QueryData :=
  { initQueryData with
    filter :=
      [("or", .arr [some (.obj
          [("like", .obj []), ("not", .obj []), ("lt", .obj []),
           ("lte", .obj []), ("gt", .obj [("rate", .str "1")]),
           ("gte", .obj []), ("name", .str "test")])]),
       ("like", .obj []), ("not", .obj []), ("lt", .obj []),
       ("lte", .obj []), ("gt", .obj []), ("gte", .obj [])] }

/-- C4: parsing `filter[or][0][name]=test` and then
`filter[or][0][gt][rate]=1` against the same freshly seeded descriptor
leaves a single `or[0]` entry holding both the equality entry
`name = "test"` and the operator entry `gt.rate = "1"` — the second
fragment is deep-merged into the first, not substituted for it. -/
theorem parseFilterWithOr_merge :
    (parseFilterWithOr "filter[or][0][name]=test" initQueryData).bind
        (parseFilterWithOr "filter[or][0][gt][rate]=1")
      = Except.ok c4Expected := by
  rfl

/-- C7: re-parsing a second `include` fragment replaces the previous list
(`include=a,b` then `include=c` gives `["c"]`), while a second
`fields[x]` fragment appends (`fields[x]=a,b` then `fields[x]=c` both
succeed and give `["a","b","c"]`). -/
theorem include_replaces_fields_append :
    (parseInclude "include=c" (parseInclude "include=a,b" initQueryData)).incl
        = ["c"]
      ∧ ((parseFields "fields[x]=a,b" initQueryData).bind
            (parseFields "fields[x]=c")).map (fun d => aGet d.fields "x")
        = Except.ok (some ["a", "b", "c"]) := by
  constructor
  · rfl
  · rfl

/-- C2 counterexample: `parseRequest` can fail in ways other than the
missing-relationship-type error.  A malformed percent escape in a query
fragment raises `URIError` from `decodeURIComponent`, and an operator
filter whose map was overwritten by an equality filter raises a strict-mode
`TypeError`. -/
theorem parseRequest_other_failures :
    parseRequest "a?%" = Except.error .uriError
      ∧ parseRequest "a?filter[gt]=5&filter[gt][age]=17"
        = Except.error .typeError := by
  constructor
  · rfl
  · rfl

/-- C2 (amended): a `parseRequest` call either returns a complete
descriptor or raises one of exactly three errors: the
missing-relationship-type `ReferenceError`, a `URIError` from
percent-decoding a malformed fragment, or a strict-mode `TypeError` from a
filter mutation that runs into a value previously overwritten to a string
primitive. -/
theorem parseRequest_total_or_known_error (url : String) :
    (∃ d, parseRequest url = Except.ok d)
      ∨ parseRequest url = Except.error .missingRelationshipType
      ∨ parseRequest url = Except.error .uriError
      ∨ parseRequest url = Except.error .typeError := by
  cases h : parseRequest url with
  | ok d => exact Or.inl ⟨d, rfl⟩
  | error e => cases e with
    | missingRelationshipType => exact Or.inr (Or.inl rfl)
    | uriError => exact Or.inr (Or.inr (Or.inl rfl))
    | typeError => exact Or.inr (Or.inr (Or.inr rfl))

/-! ## C9: `trimSlashes` removes exactly the leading and trailing slashes -/

def slashP (c : Char) : Bool := c == '/'

/-- All leading slashes removed. -/
def ltrimSlashes (l : List Char) : List Char := l.dropWhile slashP

/-- All trailing slashes removed. -/
def rtrimSlashes (l : List Char) : List Char :=
  (l.reverse.dropWhile slashP).reverse

theorem rtrimSlashes_concat_slash (ys : List Char) :
    rtrimSlashes (ys ++ ['/']) = rtrimSlashes ys := by
  simp [rtrimSlashes, slashP]

theorem rtrimSlashes_of_getLast (l : List Char)
    (h : l.getLast? ≠ some '/') : rtrimSlashes l = l := by
  unfold rtrimSlashes
  cases hr : l.reverse with
  | nil => simpa using congrArg List.reverse hr
  | cons b x =>
    have hb : b ≠ '/' := by
      intro hb
      apply h
      rw [← List.head?_reverse, hr, hb]
      rfl
    have : slashP b = false := by simp [slashP, hb]
    rw [List.dropWhile_cons_of_neg (by simp [this]), ← hr,
      List.reverse_reverse]

theorem dropWhile_head_false {p : Char → Bool} {l t : List Char} {a : Char}
    (h : l.dropWhile p = a :: t) : p a = false := by
  induction l with
  | nil => simp at h
  | cons c cs ih =>
    rw [List.dropWhile_cons] at h
    by_cases hc : p c
    · simp [hc] at h
      exact ih h
    · simp [hc] at h
      rw [← h.1]
      simpa using hc

theorem dropWhile_idem (p : Char → Bool) (l : List Char) :
    (l.dropWhile p).dropWhile p = l.dropWhile p := by
  cases h : l.dropWhile p with
  | nil => rfl
  | cons a t =>
    rw [List.dropWhile_cons_of_neg]
    simp [dropWhile_head_false h]

theorem rtrimSlashes_cons {a : Char} (t : List Char) (ha : slashP a = false) :
    rtrimSlashes (a :: t) = a :: rtrimSlashes t := by
  unfold rtrimSlashes
  rw [show (a :: t).reverse = t.reverse ++ [a] by simp,
    List.dropWhile_append]
  by_cases h : (t.reverse.dropWhile slashP).isEmpty
  · simp only [h, if_true]
    rw [List.dropWhile_cons_of_neg (by simp [ha])]
    simp only [List.isEmpty_iff] at h
    simp [h]
  · simp [h]

theorem trimSlashesGo_eq (fuel : Nat) :
    ∀ l : List Char, l.length ≤ fuel →
      trimSlashesGo fuel l = rtrimSlashes (ltrimSlashes l) := by
  induction fuel with
  | zero =>
    intro l hl
    have : l = [] := List.length_eq_zero.mp (Nat.le_zero.mp hl)
    subst this
    rfl
  | succ fuel ih =>
    intro l hl
    cases l with
    | nil => rfl
    | cons c t =>
      rw [trimSlashesGo]
      by_cases hc : c == '/'
      · rw [if_pos hc, ih t (by simpa using Nat.le_of_succ_le_succ hl)]
        have : slashP c = true := hc
        simp [ltrimSlashes, List.dropWhile_cons, this]
      · rw [if_neg hc]
        by_cases hg : (c :: t).getLast? == some '/'
        · rw [if_pos hg]
          obtain ⟨ys, hys⟩ := List.getLast?_eq_some_iff.mp (by simpa using hg)
          have hlen : ys.length = t.length := by
            have h1 : (c :: t).length = ys.length + 1 := by rw [hys]; simp
            simp at h1
            omega
          have ht : t.length ≤ fuel := by simp at hl; omega
          have hys' : (c :: t).dropLast = ys := by rw [hys, List.dropLast_concat]
          rw [hys', ih ys (hlen ▸ ht)]
          cases ys with
          | nil =>
            exact absurd (show (c == '/') = true by simp_all) hc
          | cons y ys' =>
            injection hys with hcy hts
            have hcf : slashP c = false := by simpa [slashP] using hc
            have hyf : slashP y = false := hcy ▸ hcf
            have h1 : ltrimSlashes (y :: ys') = y :: ys' := by
              simp [ltrimSlashes, List.dropWhile_cons, hyf]
            have h2 : ltrimSlashes (c :: t) = c :: t := by
              simp [ltrimSlashes, List.dropWhile_cons, hcf]
            rw [h1, h2, hcy, hts]
            exact (rtrimSlashes_concat_slash (y :: ys')).symm
        · rw [if_neg hg]
          have hcf : slashP c = false := by simpa [slashP] using hc
          have h2 : ltrimSlashes (c :: t) = c :: t := by
            simp [ltrimSlashes, List.dropWhile_cons, hcf]
          rw [h2, rtrimSlashes_of_getLast _ (by simpa using hg)]

theorem trimSlashesL_eq (l : List Char) :
    trimSlashesL l = rtrimSlashes (ltrimSlashes l) :=
  trimSlashesGo_eq l.length l Nat.le.refl

/-- The trimmed result is empty or starts with a non-slash. -/
theorem trimSlashesL_head (l : List Char) :
    trimSlashesL l = []
      ∨ ∃ a t, trimSlashesL l = a :: t ∧ slashP a = false := by
  rw [trimSlashesL_eq]
  cases hu : ltrimSlashes l with
  | nil => left; simp [rtrimSlashes]
  | cons a t =>
    right
    have ha : slashP a = false := dropWhile_head_false hu
    exact ⟨a, rtrimSlashes t, by rw [rtrimSlashes_cons t ha], ha⟩

theorem rtrimSlashes_idem (l : List Char) :
    rtrimSlashes (rtrimSlashes l) = rtrimSlashes l := by
  unfold rtrimSlashes
  rw [List.reverse_reverse, dropWhile_idem]

theorem trimSlashesL_idem (l : List Char) :
    trimSlashesL (trimSlashesL l) = trimSlashesL l := by
  rw [trimSlashesL_eq, trimSlashesL_eq]
  cases hu : ltrimSlashes l with
  | nil => simp [rtrimSlashes, ltrimSlashes]
  | cons a t =>
    have ha : slashP a = false := dropWhile_head_false hu
    rw [rtrimSlashes_cons t ha]
    have h1 : ltrimSlashes (a :: rtrimSlashes t) = a :: rtrimSlashes t := by
      simp [ltrimSlashes, List.dropWhile_cons, ha]
    rw [h1, ← rtrimSlashes_cons t ha, rtrimSlashes_idem]

/-- C9: `trimSlashes` is total by construction and returns its argument
with every leading and trailing `/` removed; in particular
`trimSlashes "//a/b//" = "a/b"`, and it is idempotent. -/
theorem trimSlashes_spec (x : String) :
    trimSlashes x = String.mk (rtrimSlashes (ltrimSlashes x.data))
      ∧ trimSlashes "//a/b//" = "a/b"
      ∧ trimSlashes (trimSlashes x) = trimSlashes x := by
  refine ⟨congrArg String.mk (trimSlashesL_eq x.data), by rfl, ?_⟩
  show String.mk (trimSlashesL (String.mk (trimSlashesL x.data)).data) = _
  exact congrArg String.mk (trimSlashesL_idem x.data)

/-! ## C5 / C8: endpoint resolution -/

/-- The part of the URL that `parseRequest` hands to `parseEndpoint`. -/
def pathPart (url : String) : String :=
  ((splitOnCharL '?' url.data).map String.mk).getD 0 ""

/-- The segment list `parseEndpoint` computes for a path. -/
def segsOf (p : String) : List String :=
  (splitOnCharL '/' (trimSlashesL p.data)).map String.mk

theorem splitOnCharL_ne_nil (sep : Char) (l : List Char) :
    splitOnCharL sep l ≠ [] := by
  cases l with
  | nil => simp [splitOnCharL]
  | cons c t =>
    rw [splitOnCharL]
    cases splitOnCharL sep t with
    | nil => simp
    | cons h r =>
      by_cases hc : c == sep
      · simp [hc]
      · simp [hc]

theorem segs_getElem? {L : List (List Char)} {i : Nat} {s : String}
    (h : (L.map String.mk).get? i = some s) : L[i]? = some s.data := by
  rw [List.get?_eq_getElem?, List.getElem?_map] at h
  obtain ⟨c, hc, hcs⟩ := Option.map_eq_some'.mp h
  rw [hc, show c = s.data from congrArg String.data hcs]

theorem parseEndpoint_missing (p : String) (rd0 : RequestData)
    (s : String) (h2 : (segsOf p).get? 2 = some s)
    (hs : String.mk (s.data.map lowerChar) = "relationships")
    (h4 : (segsOf p).get? 3 = none ∨ (segsOf p).get? 3 = some "") :
    parseEndpoint p rd0 = .error .missingRelationshipType := by
  have h2' : (splitOnCharL '/' (trimSlashesL p.data))[2]? = some s.data :=
    segs_getElem? h2
  rcases h4 with h4 | h4
  · have h4' : (splitOnCharL '/' (trimSlashesL p.data))[3]? = none := by
      have : ((splitOnCharL '/' (trimSlashesL p.data)).map String.mk).get? 3
          = none := h4
      simpa using this
    simp [parseEndpoint, h2', h4', hs]
  · have h4' : (splitOnCharL '/' (trimSlashesL p.data))[3]? = some [] :=
      segs_getElem? h4
    simp [parseEndpoint, h2', h4', hs]

theorem parseEndpoint_relationshipType (p : String) (rd0 : RequestData)
    (s s4 : String) (h2 : (segsOf p).get? 2 = some s)
    (hs : String.mk (s.data.map lowerChar) = "relationships")
    (h4 : (segsOf p).get? 3 = some s4) (hne : s4 ≠ "") :
    (parseEndpoint p rd0).map (fun rd => rd.relationshipType)
      = Except.ok (some s4) := by
  have h2' : (splitOnCharL '/' (trimSlashesL p.data))[2]? = some s.data :=
    segs_getElem? h2
  have h4' : (splitOnCharL '/' (trimSlashesL p.data))[3]? = some s4.data :=
    segs_getElem? h4
  have hse : s4.data ≠ [] := by
    intro hd
    exact hne (congrArg String.mk hd)
  simp [parseEndpoint, h2', h4', hs, hse, Except.map]

/-- C5: whenever the third segment of the slash-normalized, `/`-split path
case-insensitively equals `relationships` and no non-empty fourth segment
exists, the whole `parseRequest` call fails with the
missing-relationship-type error (unrecovered); when a non-empty fourth
segment exists, endpoint resolution stores it as `relationshipType`. -/
theorem relationships_require_type (url : String) (s : String)
    (h2 : (segsOf (pathPart url)).get? 2 = some s)
    (hs : String.mk (s.data.map lowerChar) = "relationships") :
    ((segsOf (pathPart url)).get? 3 = none
        ∨ (segsOf (pathPart url)).get? 3 = some "" →
      parseRequest url = .error .missingRelationshipType)
    ∧ (∀ s4, (segsOf (pathPart url)).get? 3 = some s4 → s4 ≠ "" →
        (parseEndpoint (pathPart url) initRequestData).map
            (fun rd => rd.relationshipType) = Except.ok (some s4)) := by
  constructor
  · intro h4
    have hgd : ((splitOnCharL '?' url.data).map String.mk).getD 0 ""
        = String.mk ((splitOnCharL '?' url.data)[0]?.getD []) := by
      cases splitOnCharL '?' url.data <;> simp [List.getD]
    have hpe : parseEndpoint (String.mk ((splitOnCharL '?' url.data)[0]?.getD []))
        initRequestData = .error .missingRelationshipType := by
      rw [← hgd]
      exact parseEndpoint_missing (pathPart url) initRequestData s h2 hs h4
    simp only [parseRequest]
    rw [hgd, hpe]
    rfl
  · intro s4 h4 hne
    exact parseEndpoint_relationshipType (pathPart url) initRequestData s s4 h2 hs h4 hne

/-- C5 witness: a trailing-slash relationships path raises the error through
`parseRequest`, and a present fourth segment becomes `relationshipType`. -/
theorem relationships_require_type_witness :
    parseRequest "a/b/relationships/" = .error .missingRelationshipType
      ∧ (parseEndpoint (pathPart "a/b/relationships/c") initRequestData).map
          (fun rd => rd.relationshipType) = Except.ok (some "c") :=
  ⟨(relationships_require_type "a/b/relationships/" "relationships"
      (by rfl) (by rfl)).1 (Or.inl (by rfl)),
    (relationships_require_type "a/b/relationships/c" "relationships"
      (by rfl) (by rfl)).2 "c" (by rfl) (by decide)⟩

theorem except_error_bind {α β : Type} (e : JsErr) (f : α → Except JsErr β) :
    (Except.error e >>= f) = Except.error e := rfl

theorem except_ok_bind {α β : Type} (a : α) (f : α → Except JsErr β) :
    (Except.ok a >>= f) = f a := rfl

/-- Every `ok` branch of `parseEndpoint` stores the first segment (of the
slash-trimmed, `/`-split path) as `resourceType`. -/
theorem parseEndpoint_resourceType {p : String} {rd0 rd : RequestData}
    (h : parseEndpoint p rd0 = .ok rd) :
    rd.resourceType
      = some (String.mk ((splitOnCharL '/' (trimSlashesL p.data))[0]?.getD [])) := by
  simp only [parseEndpoint] at h
  split at h
  · split at h
    · exact absurd h (by simp)
    · split at h
      · exact absurd h (by simp)
      · obtain rfl := Except.ok.inj h
        show some ((List.map String.mk (splitOnCharL '/' (trimSlashesL p.data))).getD 0 "") = _
        cases splitOnCharL '/' (trimSlashesL p.data) <;> simp [List.getD]
  · obtain rfl := Except.ok.inj h
    show some ((List.map String.mk (splitOnCharL '/' (trimSlashesL p.data))).getD 0 "") = _
    cases splitOnCharL '/' (trimSlashesL p.data) <;> simp [List.getD]


/-- The query stage never changes `resourceType`. -/
theorem parseRequest_resourceType {url : String} {d : RequestData}
    (h : parseRequest url = .ok d) :
    ∃ rd, parseEndpoint (pathPart url) initRequestData = .ok rd
      ∧ d.resourceType = rd.resourceType := by
  replace h : (do
      let rd ← parseEndpoint (pathPart url) initRequestData
      match ((splitOnCharL '?' url.data).map String.mk).get? 1 with
      | some q =>
        if q.data.isEmpty then Except.ok rd
        else do
          let qd ← parseQueryParameters q rd.queryData
          Except.ok { rd with queryData := qd }
      | none => Except.ok rd) = Except.ok d := h
  cases hpe : parseEndpoint (pathPart url) initRequestData with
  | error e =>
    rw [hpe, except_error_bind] at h
    exact absurd h (by simp)
  | ok rd =>
    refine ⟨rd, rfl, ?_⟩
    rw [hpe, except_ok_bind] at h
    rcases hq : ((splitOnCharL '?' url.data).map String.mk).get? 1 with _ | q
    · rw [hq] at h
      rw [← Except.ok.inj h]
    · rw [hq] at h
      dsimp only [] at h
      by_cases he : q.data.isEmpty
      · rw [if_pos he] at h
        rw [← Except.ok.inj h]
      · rw [if_neg he] at h
        cases hqp : parseQueryParameters q rd.queryData with
        | error e =>
          rw [hqp, except_error_bind] at h
          exact absurd h (by simp)
        | ok qd =>
          rw [hqp, except_ok_bind] at h
          rw [← Except.ok.inj h]

/-- The descriptor `parseRequest ""` returns. -/
def emptyUrlDescriptor : RequestData :=
  { resourceType := some "", identifier := none, relationships := false,
    relationshipType := none, queryData := initQueryData }

/-- C8 counterexample: the empty URL parses successfully, and its
`resourceType` is the empty string — not a non-empty one. -/
theorem parseRequest_empty_resourceType :
    parseRequest "" = Except.ok emptyUrlDescriptor
      ∧ emptyUrlDescriptor.resourceType = some "" := ⟨by rfl, by rfl⟩

/-- C8 (amended): on every successful parse, `resourceType` is a string
(never `null`) — the first segment of the slash-trimmed path — and it is
empty exactly when the whole slash-trimmed path part is empty. -/
theorem resourceType_first_segment (url : String) (d : RequestData)
    (h : parseRequest url = .ok d) :
    ∃ s, d.resourceType = some s
      ∧ (s = "" ↔ trimSlashes (pathPart url) = "") := by
  obtain ⟨rd, hpe, hres⟩ := parseRequest_resourceType h
  have hrt := parseEndpoint_resourceType hpe
  refine ⟨_, hres.trans hrt, ?_⟩
  have hmk : ∀ a b : List Char, String.mk a = String.mk b ↔ a = b :=
    fun a b => ⟨congrArg String.data, congrArg String.mk⟩
  rw [show ("" : String) = String.mk [] from rfl,
    show trimSlashes (pathPart url)
      = String.mk (trimSlashesL (pathPart url).data) from rfl,
    hmk, hmk]
  rcases trimSlashesL_head (pathPart url).data with htr | ⟨a, t, htr, ha⟩
  · rw [htr]
    simp [splitOnCharL, List.getD]
  · rw [htr, splitOnCharL]
    rcases hsp : splitOnCharL '/' t with _ | ⟨hh, r⟩
    · exact absurd hsp (splitOnCharL_ne_nil '/' t)
    · have hane : ¬(a == '/') = true := by simpa [slashP] using ha
      simp [hane]

/-- The descriptor `parseRequest "article/5"` returns. -/
def articleFiveDescriptor : RequestData :=
  { resourceType := some "article", identifier := some "5",
    relationships := false, relationshipType := none,
    queryData := initQueryData }

/-- C8 witness: the amended statement at the concrete URL `article/5`. -/
theorem resourceType_first_segment_witness :
    ∃ s, articleFiveDescriptor.resourceType = some s
      ∧ (s = "" ↔ trimSlashes (pathPart "article/5") = "") :=
  resourceType_first_segment "article/5" articleFiveDescriptor (by rfl)

/-! ## C10: `split('=')[1]` keeps only the text before the second `=` -/

theorem splitOnCharL_append (sep : Char) (l1 l2 : List Char)
    (h : sep ∉ l1) :
    splitOnCharL sep (l1 ++ sep :: l2) = l1 :: splitOnCharL sep l2 := by
  induction l1 with
  | nil =>
    rw [List.nil_append, splitOnCharL]
    rcases hsp : splitOnCharL sep l2 with _ | ⟨hh, r⟩
    · exact absurd hsp (splitOnCharL_ne_nil sep l2)
    · simp
  | cons c l1' ih =>
    have hc : c ≠ sep := fun hcc => h (hcc ▸ List.mem_cons_self c l1')
    have h' : sep ∉ l1' := fun hm => h (List.mem_cons_of_mem c hm)
    rw [List.cons_append, splitOnCharL, ih h']
    simp [hc]


/-- C10: for an `include`/`sort` fragment whose payload contains `=`, only
the text strictly between the first and second `=` of the fragment survives
(comma-split); everything from the second `=` on is silently discarded
(`a` is the payload text before its first `=`, `b` everything after). -/
theorem include_sort_value_truncated (a b : String) (d : QueryData)
    (ha : '=' ∉ a.data) :
    parseInclude ("include=" ++ a ++ "=" ++ b) d
        = { d with incl := (splitOnCharL ',' a.data).map String.mk }
      ∧ parseSort ("sort=" ++ a ++ "=" ++ b) d
        = { d with sort := (splitOnCharL ',' a.data).map String.mk } := by
  have hinc : '=' ∉ "include".data := by decide
  have hsrt : '=' ∉ "sort".data := by decide
  have hdata1 : ("include=" ++ a ++ "=" ++ b).data
      = "include".data ++ '=' :: (a.data ++ '=' :: b.data) := by
    simp [String.data_append]
  have hdata2 : ("sort=" ++ a ++ "=" ++ b).data
      = "sort".data ++ '=' :: (a.data ++ '=' :: b.data) := by
    simp [String.data_append]
  constructor
  · unfold parseInclude
    rw [hdata1, splitOnCharL_append '=' _ _ hinc, splitOnCharL_append '=' _ _ ha]
    rfl
  · unfold parseSort
    rw [hdata2, splitOnCharL_append '=' _ _ hsrt, splitOnCharL_append '=' _ _ ha]
    rfl

/-- C10 witness: `include=a=b` keeps include `["a"]`, and `sort=a=b` keeps
sort `["a"]`. -/
theorem include_sort_value_truncated_witness :
    parseInclude "include=a=b" initQueryData
        = { initQueryData with incl := ["a"] }
      ∧ parseSort "sort=a=b" initQueryData
        = { initQueryData with sort := ["a"] } := by
  have h := include_sort_value_truncated "a" "b" initQueryData (by decide)
  exact ⟨h.1, h.2⟩

/-! ## C6: operator filters on a fresh descriptor -/

theorem startsWithL_sound {pat l : List Char} (h : startsWithL pat l = true) :
    l = pat ++ l.drop pat.length := by
  induction pat generalizing l with
  | nil => simp
  | cons p ps ih =>
    cases l with
    | nil => simp [startsWithL] at h
    | cons c t =>
      rw [startsWithL, Bool.and_eq_true] at h
      obtain ⟨h1, h2⟩ := h
      have : p = c := by simpa using h1
      subst this
      rw [List.cons_append]
      rw [show (p :: t).drop (p :: ps).length = t.drop ps.length by simp]
      exact congrArg (p :: ·) (ih h2)

theorem breakSub_sound {pat l a b : List Char}
    (h : breakSub pat l = some (a, b)) : l = a ++ pat ++ b := by
  induction l generalizing a with
  | nil => simp [breakSub] at h
  | cons c t ih =>
    rw [breakSub] at h
    by_cases hs : startsWithL pat (c :: t)
    · rw [if_pos hs] at h
      obtain ⟨ha, hb⟩ := Prod.mk.injEq .. ▸ (Option.some.inj h)
      subst ha
      rw [List.nil_append]
      rw [← hb]
      exact startsWithL_sound hs
    · rw [if_neg hs] at h
      rcases hb : breakSub pat t with _ | ⟨a', b'⟩
      · rw [hb] at h; simp at h
      · rw [hb] at h
        obtain ⟨ha', hb'⟩ := Prod.mk.injEq .. ▸ (Option.some.inj h)
        subst hb'
        rw [← ha']
        rw [List.cons_append, List.cons_append]
        exact congrArg (c :: ·) (ih hb)

theorem breakSub_clean {col value : List Char} (h : ']' ∉ col) :
    breakSub (']' :: ['=']) (col ++ ']' :: '=' :: value)
      = some (col, value) := by
  induction col with
  | nil => rfl
  | cons c cs ih =>
    have hc : c ≠ ']' := fun hcc => h (hcc ▸ List.mem_cons_self c cs)
    have h' : ']' ∉ cs := fun hm => h (List.mem_cons_of_mem c hm)
    rw [List.cons_append, breakSub]
    have hsw : startsWithL (']' :: ['=']) (c :: (cs ++ ']' :: '=' :: value))
        = false := by
      rw [startsWithL]
      simp [Ne.symm hc]
    rw [hsw]
    simp only [Bool.false_eq_true, if_false, ih h']

theorem ftSearch_clean (pre : List Char) {col value : List Char}
    (hpre1 : ']' ∉ pre) (hpre2 : pre.all (fun d => !lineTerm d) = true)
    (hcol1 : ']' ∉ col) (hcol2 : col.all (fun d => !lineTerm d) = true)
    (hval : value.all (fun d => !lineTerm d) = true) :
    ftSearch (pre ++ ']' :: '[' :: (col ++ ']' :: '=' :: value))
      = some (pre, col, value) := by
  induction pre with
  | nil =>
    rw [List.nil_append, ftSearch]
    have htail : (col ++ ']' :: '=' :: value).all (fun d => !lineTerm d)
        = true := by
      rw [List.all_append]
      simp only [Bool.and_eq_true]
      refine ⟨hcol2, ?_⟩
      simp only [List.all_cons, Bool.and_eq_true]
      exact ⟨by rfl, by rfl, hval⟩
    have hbs := @breakSub_clean col value hcol1
    simp only [List.drop_succ_cons, List.drop_zero]
    rw [show startsWithL (']' :: ['['])
        (']' :: '[' :: (col ++ ']' :: '=' :: value)) = true from rfl]
    simp only [htail, hbs]
    rfl
  | cons c cs ih =>
    have hc : c ≠ ']' := fun hcc => hpre1 (hcc ▸ List.mem_cons_self c cs)
    have h1' : ']' ∉ cs := fun hm => hpre1 (List.mem_cons_of_mem c hm)
    rw [List.all_cons, Bool.and_eq_true] at hpre2
    obtain ⟨hcLT, h2'⟩ := hpre2
    rw [List.cons_append, ftSearch]
    have hsw : startsWithL (']' :: ['['])
        (c :: (cs ++ ']' :: '[' :: (col ++ ']' :: '=' :: value))) = false := by
      rw [startsWithL]
      simp [Ne.symm hc]
    rw [hsw]
    have hcLT' : lineTerm c = false := by simpa using hcLT
    simp only [Bool.false_and, Bool.false_eq_true, if_false, hcLT', ih h1' h2']
    rfl

theorem ftSearch_sound {l A B C : List Char}
    (h : ftSearch l = some (A, B, C)) :
    l = A ++ ']' :: '[' :: (B ++ ']' :: '=' :: C) := by
  induction l generalizing A with
  | nil => simp [ftSearch] at h
  | cons c t ih =>
    rw [ftSearch] at h
    by_cases hcond : (startsWithL (']' :: ['[']) (c :: t)
        && (t.drop 1).all (fun d => !lineTerm d)
        && (breakSub (']' :: ['=']) (t.drop 1)).isSome) = true
    · rw [if_pos hcond] at h
      simp only [Bool.and_eq_true] at hcond
      obtain ⟨⟨hsw, _⟩, hbs⟩ := hcond
      rcases hb : breakSub (']' :: ['=']) (t.drop 1) with _ | ⟨b, v⟩
      · rw [hb] at hbs; simp at hbs
      · rw [hb] at h
        simp only [Option.some.injEq, Prod.mk.injEq] at h
        obtain ⟨hA, hB, hC⟩ := h
        have hbse := breakSub_sound hb
        rw [← hA, ← hB, ← hC, List.nil_append]
        cases t with
        | nil => simp [startsWithL] at hsw
        | cons c2 t2 =>
          rw [startsWithL, startsWithL] at hsw
          simp only [Bool.and_eq_true, beq_iff_eq] at hsw
          obtain ⟨hc1, hc2, _⟩ := hsw
          subst hc1
          subst hc2
          exact congrArg (fun x => ']' :: '[' :: x) (by simpa using hbse)
    · rw [if_neg hcond] at h
      by_cases hlt : lineTerm c
      · rw [if_pos hlt] at h; simp at h
      · rw [if_neg hlt] at h
        rcases hf : ftSearch t with _ | ⟨A', B', C'⟩
        · rw [hf] at h; simp at h
        · rw [hf] at h
          simp only [Option.map_some', Option.some.injEq, Prod.mk.injEq] at h
          obtain ⟨hA, hB, hC⟩ := h
          rw [hB, hC] at hf
          rw [← hA]
          rw [List.cons_append]
          exact congrArg (c :: ·) (ih hf)

theorem ciStrip_filter_pre (Y : List Char) :
    ciStrip "filter[".data ("filter[".data ++ Y) = some Y := rfl

/-- Captures of the `parseFilterType` pattern on a well-shaped fragment. -/
theorem matchFilterType_capture (c0 : Char) (opT col value : List Char)
    (hc0 : (c0 == 'o' || c0 == 'O' || c0 == 'r' || c0 == 'R') = false)
    (hT1 : ']' ∉ opT) (hT2 : opT.all (fun d => !lineTerm d) = true)
    (hcol1 : ']' ∉ col) (hcol2 : col.all (fun d => !lineTerm d) = true)
    (hval : value.all (fun d => !lineTerm d) = true) :
    matchFilterType
        ("filter[".data ++ c0 :: (opT ++ ']' :: '[' :: (col ++ ']' :: '=' :: value)))
      = some (c0 :: opT, col, value) := by
  unfold matchFilterType
  rw [ciStrip_filter_pre]
  dsimp only []
  rw [hc0]
  simp only [Bool.false_eq_true, if_false]
  rw [ftSearch_clean opT hT1 hT2 hcol1 hcol2 hval]
  rfl

/-- Structure of any successful `parseFilterType` match. -/
theorem matchFilterType_sound {l TT B C : List Char}
    (h : matchFilterType l = some (TT, B, C)) :
    ∃ c0 A, TT = c0 :: A
      ∧ (c0 == 'o' || c0 == 'O' || c0 == 'r' || c0 == 'R') = false
      ∧ ciStrip "filter[".data l
          = some (c0 :: (A ++ ']' :: '[' :: (B ++ ']' :: '=' :: C))) := by
  unfold matchFilterType at h
  rcases hcs : ciStrip "filter[".data l with _ | ⟨_ | ⟨c0, r1⟩⟩
  · rw [hcs] at h; simp at h
  · rw [hcs] at h; simp at h
  · rw [hcs] at h
    dsimp only [] at h
    by_cases hg : (c0 == 'o' || c0 == 'O' || c0 == 'r' || c0 == 'R') = true
    · rw [if_pos hg] at h; simp at h
    · rw [if_neg hg] at h
      rcases hf : ftSearch r1 with _ | ⟨A, B', C'⟩
      · rw [hf] at h; simp at h
      · rw [hf] at h
        simp only [Option.map_some', Option.some.injEq, Prod.mk.injEq] at h
        obtain ⟨hT, hB, hC⟩ := h
        refine ⟨c0, A, hT.symm, by simpa using hg, ?_⟩
        have hr1 := ftSearch_sound hf
        rw [hB, hC] at hr1
        rw [hr1]

/-- Two decompositions at a first `]` agree. -/
theorem first_bracket_unique {a b x y : List Char}
    (h : a ++ ']' :: x = b ++ ']' :: y) (ha : ']' ∉ a) (hb : ']' ∉ b) :
    a = b := by
  induction a generalizing b with
  | nil =>
    cases b with
    | nil => rfl
    | cons d b' =>
      rw [List.nil_append, List.cons_append] at h
      have : ']' = d := (List.cons.injEq .. ▸ h).1
      exact absurd (this ▸ List.mem_cons_self d b') hb
  | cons c a' ih =>
    cases b with
    | nil =>
      rw [List.nil_append, List.cons_append] at h
      have : c = ']' := (List.cons.injEq .. ▸ h).1
      exact absurd (this ▸ List.mem_cons_self c a') ha
    | cons d b' =>
      rw [List.cons_append, List.cons_append] at h
      obtain ⟨h1, h2⟩ := List.cons.injEq .. ▸ h
      have ha' : ']' ∉ a' := fun hm => ha (List.mem_cons_of_mem c hm)
      have hb' : ']' ∉ b' := fun hm => hb (List.mem_cons_of_mem d hm)
      rw [h1, ih h2 ha' hb']

theorem objGet_initFilter_fHead (X : List Char) :
    objGet initFilter (String.mk ('f' :: X)) = none := rfl

theorem objGet_initFilter_none (k : String)
    (h1 : k ≠ "or") (h2 : k ≠ "like") (h3 : k ≠ "not") (h4 : k ≠ "lt")
    (h5 : k ≠ "lte") (h6 : k ≠ "gt") (h7 : k ≠ "gte") :
    objGet initFilter k = none := by
  have e1 : (("or" : String) == k) = false := beq_eq_false_iff_ne.mpr (Ne.symm h1)
  have e2 : (("like" : String) == k) = false := beq_eq_false_iff_ne.mpr (Ne.symm h2)
  have e3 : (("not" : String) == k) = false := beq_eq_false_iff_ne.mpr (Ne.symm h3)
  have e4 : (("lt" : String) == k) = false := beq_eq_false_iff_ne.mpr (Ne.symm h4)
  have e5 : (("lte" : String) == k) = false := beq_eq_false_iff_ne.mpr (Ne.symm h5)
  have e6 : (("gt" : String) == k) = false := beq_eq_false_iff_ne.mpr (Ne.symm h6)
  have e7 : (("gte" : String) == k) = false := beq_eq_false_iff_ne.mpr (Ne.symm h7)
  simp [objGet, aGet, initFilter, List.find?, e1, e2, e3, e4, e5, e6, e7]

/-- No `Object.prototype` member starts with the letter `f`, so the whole
unmatched fragment (which starts with `filter[`) never hits the chain. -/
theorem protoLookup_fHead (X : List Char) :
    protoLookup (String.mk ('f' :: X)) = false := rfl

/-- `protoLookup` holding forces the key to be one of the twelve member
names. -/
theorem protoLookup_cases {k : String} (h : protoLookup k = true) :
    k = "constructor" ∨ k = "__defineGetter__" ∨ k = "__defineSetter__"
      ∨ k = "hasOwnProperty" ∨ k = "__lookupGetter__"
      ∨ k = "__lookupSetter__" ∨ k = "isPrototypeOf"
      ∨ k = "propertyIsEnumerable" ∨ k = "toString" ∨ k = "valueOf"
      ∨ k = "__proto__" ∨ k = "toLocaleString" := by
  simpa only [protoLookup, Bool.or_eq_true, beq_iff_eq, or_assoc] using h

/-- `parseFilterTypeCore` after a successful pattern match. -/
theorem parseFilterTypeCore_matched {s : String} {T B C : List Char}
    {f : JObj} (h : matchFilterType s.data = some (T, B, C)) :
    parseFilterTypeCore s f
      = match objGet f (String.mk T) with
        | none =>
          if protoLookup (String.mk T) then
            if protoWriteThrows (String.mk T) (String.mk B) then
              .error .typeError
            else .ok f
          else .ok f
        | some v0 =>
          if jsTruthy v0 then
            match v0 with
            | .obj e =>
              .ok (objSet f (String.mk T)
                (.obj (objSet e (String.mk B) (.str (String.mk C)))))
            | .str _ => .error .typeError
            | .arr el =>
              match (String.mk B).toNat? with
              | some i =>
                .ok (objSet f (String.mk T) (.arr (arrSet el i (.str (String.mk C)))))
              | none => .ok f
          else .ok f := by
  simp only [parseFilterTypeCore]
  rw [h]

/-- C6 counterexample: with `op = gt` (one of the six reserved names) but a
value containing a line terminator, the fragment fails the pattern (JS `.`
does not match line terminators) and is silently ignored, leaving the
descriptor unchanged — the claim instead demands `filter.gt.age = "1\n7"`. -/
theorem parseFilterType_newline_ignored :
    parseFilterType "filter[gt][age]=1\n7" initQueryData
        = Except.ok initQueryData
      ∧ objGet initQueryData.filter "gt" = some (.obj []) := ⟨by rfl, by rfl⟩

/-- The prototype-chain branch of `parseFilterType` on the fresh seed: the
operator (split as `c0 :: A` for the pattern's leading `[^or]` class) has no
own entry but names an `Object.prototype` member, so the guard passes and
the write on the inherited value either throws or leaves the descriptor
unchanged. -/
theorem parseFilterTypeProtoCase (c0 : Char) (A : List Char)
    (col value : String)
    (hc0 : (c0 == 'o' || c0 == 'O' || c0 == 'r' || c0 == 'R') = false)
    (hT1 : ']' ∉ A) (hT2 : A.all (fun d => !lineTerm d) = true)
    (hcol1 : ']' ∉ col.data)
    (hcol2 : col.data.all (fun d => !lineTerm d) = true)
    (hval : value.data.all (fun d => !lineTerm d) = true)
    (hown : objGet initFilter (String.mk (c0 :: A)) = none)
    (hpl : protoLookup (String.mk (c0 :: A)) = true) :
    parseFilterType
        (String.mk ("filter[".data
          ++ c0 :: (A ++ ']' :: '[' :: (col.data ++ ']' :: '=' :: value.data))))
        initQueryData
      = (if protoWriteThrows (String.mk (c0 :: A)) col
         then Except.error .typeError else Except.ok initQueryData) := by
  have hm : matchFilterType
      (String.mk ("filter[".data
        ++ c0 :: (A ++ ']' :: '[' :: (col.data ++ ']' :: '=' :: value.data)))).data
      = some (c0 :: A, col.data, value.data) :=
    matchFilterType_capture c0 A col.data value.data hc0 hT1 hT2 hcol1
      hcol2 hval
  unfold parseFilterType
  rw [parseFilterTypeCore_matched hm,
    show initQueryData.filter = initFilter from rfl, hown]
  dsimp only []
  rw [hpl, show String.mk col.data = col from rfl]
  cases protoWriteThrows (String.mk (c0 :: A)) col
  · rfl
  · rfl

/-- C6 (amended): for a fragment `filter[<op>][<col>]=<value>` against a
freshly seeded descriptor, where `<col>` contains no `]`, `<col>` and
`<value>` contain no line terminators (JS `.` never matches those), and
`<col>` is not `__proto__` (whose inherited setter would swallow the
write): if `<op>` is one of the six reserved names the result binds
`filter.<op>.<col> = <value>` and leaves everything else unchanged; if
`<op>` is any other (bracket-free) name that is not a member of
`Object.prototype` the fragment is silently ignored; and if `<op>` names an
inherited `Object.prototype` member the truthy inherited value passes the
guard and the write lands on it — a strict-mode `TypeError` on the
non-writable or poisoned function properties (`name`, `length`, `caller`,
`arguments`, and `prototype` of `constructor`), and otherwise a mutation of
the shared object that leaves the descriptor unchanged. -/
theorem parseFilterType_fresh (op col value : String) :
    (op ∈ (["like", "not", "lt", "lte", "gt", "gte"] : List String) →
      ']' ∉ col.data →
      col.data.all (fun d => !lineTerm d) = true →
      value.data.all (fun d => !lineTerm d) = true →
      col ≠ "__proto__" →
      parseFilterType ("filter[" ++ op ++ "][" ++ col ++ "]=" ++ value)
          initQueryData
        = .ok { initQueryData with
            filter := objSet initFilter op (.obj [(col, .str value)]) })
    ∧ (op ∉ (["like", "not", "lt", "lte", "gt", "gte"] : List String) →
      ']' ∉ op.data →
      protoLookup op = false →
      parseFilterType ("filter[" ++ op ++ "][" ++ col ++ "]=" ++ value)
          initQueryData
        = .ok initQueryData)
    ∧ (protoLookup op = true →
      ']' ∉ col.data →
      col.data.all (fun d => !lineTerm d) = true →
      value.data.all (fun d => !lineTerm d) = true →
      parseFilterType ("filter[" ++ op ++ "][" ++ col ++ "]=" ++ value)
          initQueryData
        = (if protoWriteThrows op col then Except.error .typeError
           else Except.ok initQueryData)) := by
  refine ⟨?_, ?_, ?_⟩
  · intro hop hcol1 hcol2 hval hcp
    simp only [List.mem_cons, List.mem_singleton, List.not_mem_nil,
      or_false] at hop
    rcases hop with rfl | rfl | rfl | rfl | rfl | rfl
    · have hdata : ("filter[" ++ "like" ++ "][" ++ col ++ "]=" ++ value).data
          = "filter[".data
            ++ 'l' :: (['i', 'k', 'e'] ++ ']' :: '[' :: (col.data ++ ']' :: '=' :: value.data)) := by
        simp [String.data_append]
      have hm : matchFilterType
          ("filter[" ++ "like" ++ "][" ++ col ++ "]=" ++ value).data
          = some ('l' :: ['i', 'k', 'e'], col.data, value.data) := by
        rw [hdata]
        exact matchFilterType_capture 'l' ['i', 'k', 'e'] col.data value.data
          (by decide) (by decide) (by decide) hcol1 hcol2 hval
      unfold parseFilterType
      rw [parseFilterTypeCore_matched hm]
      rfl
    · have hdata : ("filter[" ++ "not" ++ "][" ++ col ++ "]=" ++ value).data
          = "filter[".data
            ++ 'n' :: (['o', 't'] ++ ']' :: '[' :: (col.data ++ ']' :: '=' :: value.data)) := by
        simp [String.data_append]
      have hm : matchFilterType
          ("filter[" ++ "not" ++ "][" ++ col ++ "]=" ++ value).data
          = some ('n' :: ['o', 't'], col.data, value.data) := by
        rw [hdata]
        exact matchFilterType_capture 'n' ['o', 't'] col.data value.data
          (by decide) (by decide) (by decide) hcol1 hcol2 hval
      unfold parseFilterType
      rw [parseFilterTypeCore_matched hm]
      rfl
    · have hdata : ("filter[" ++ "lt" ++ "][" ++ col ++ "]=" ++ value).data
          = "filter[".data
            ++ 'l' :: (['t'] ++ ']' :: '[' :: (col.data ++ ']' :: '=' :: value.data)) := by
        simp [String.data_append]
      have hm : matchFilterType
          ("filter[" ++ "lt" ++ "][" ++ col ++ "]=" ++ value).data
          = some ('l' :: ['t'], col.data, value.data) := by
        rw [hdata]
        exact matchFilterType_capture 'l' ['t'] col.data value.data
          (by decide) (by decide) (by decide) hcol1 hcol2 hval
      unfold parseFilterType
      rw [parseFilterTypeCore_matched hm]
      rfl
    · have hdata : ("filter[" ++ "lte" ++ "][" ++ col ++ "]=" ++ value).data
          = "filter[".data
            ++ 'l' :: (['t', 'e'] ++ ']' :: '[' :: (col.data ++ ']' :: '=' :: value.data)) := by
        simp [String.data_append]
      have hm : matchFilterType
          ("filter[" ++ "lte" ++ "][" ++ col ++ "]=" ++ value).data
          = some ('l' :: ['t', 'e'], col.data, value.data) := by
        rw [hdata]
        exact matchFilterType_capture 'l' ['t', 'e'] col.data value.data
          (by decide) (by decide) (by decide) hcol1 hcol2 hval
      unfold parseFilterType
      rw [parseFilterTypeCore_matched hm]
      rfl
    · have hdata : ("filter[" ++ "gt" ++ "][" ++ col ++ "]=" ++ value).data
          = "filter[".data
            ++ 'g' :: (['t'] ++ ']' :: '[' :: (col.data ++ ']' :: '=' :: value.data)) := by
        simp [String.data_append]
      have hm : matchFilterType
          ("filter[" ++ "gt" ++ "][" ++ col ++ "]=" ++ value).data
          = some ('g' :: ['t'], col.data, value.data) := by
        rw [hdata]
        exact matchFilterType_capture 'g' ['t'] col.data value.data
          (by decide) (by decide) (by decide) hcol1 hcol2 hval
      unfold parseFilterType
      rw [parseFilterTypeCore_matched hm]
      rfl
    · have hdata : ("filter[" ++ "gte" ++ "][" ++ col ++ "]=" ++ value).data
          = "filter[".data
            ++ 'g' :: (['t', 'e'] ++ ']' :: '[' :: (col.data ++ ']' :: '=' :: value.data)) := by
        simp [String.data_append]
      have hm : matchFilterType
          ("filter[" ++ "gte" ++ "][" ++ col ++ "]=" ++ value).data
          = some ('g' :: ['t', 'e'], col.data, value.data) := by
        rw [hdata]
        exact matchFilterType_capture 'g' ['t', 'e'] col.data value.data
          (by decide) (by decide) (by decide) hcol1 hcol2 hval
      unfold parseFilterType
      rw [parseFilterTypeCore_matched hm]
      rfl
  · intro hop hopBr hplop
    rcases hm : matchFilterType
        ("filter[" ++ op ++ "][" ++ col ++ "]=" ++ value).data
        with _ | ⟨T, B, C⟩
    · have hfrag : ("filter[" ++ op ++ "][" ++ col ++ "]=" ++ value)
          = String.mk ('f' ::
            ("ilter[".data ++ op.data ++ ']' :: '[' :: (col.data ++ ']' :: '=' :: value.data))) := by
        rw [String.ext_iff]
        simp [String.data_append]
      unfold parseFilterType
      simp only [parseFilterTypeCore]
      rw [hm]
      dsimp only []
      rw [hfrag, show initQueryData.filter = initFilter from rfl,
        objGet_initFilter_fHead, protoLookup_fHead]
      rfl
    · obtain ⟨c0, A, hTT, hguard, hcs⟩ := matchFilterType_sound hm
      have hdata : ("filter[" ++ op ++ "][" ++ col ++ "]=" ++ value).data
          = "filter[".data
            ++ (op.data ++ ']' :: '[' :: (col.data ++ ']' :: '=' :: value.data)) := by
        simp [String.data_append]
      rw [hdata, ciStrip_filter_pre] at hcs
      have heq : op.data ++ ']' :: '[' :: (col.data ++ ']' :: '=' :: value.data)
          = (c0 :: A) ++ ']' :: '[' :: (B ++ ']' :: '=' :: C) := by
        rw [List.cons_append]
        exact Option.some.inj hcs
      have hTTop : ∀ K : String, ']' ∉ K.data → String.mk T = K → op = K := by
        intro K hK hEq
        have hTd : T = K.data := congrArg String.data hEq
        have heq2 := heq
        rw [← hTT, hTd] at heq2
        exact String.ext (first_bracket_unique heq2 hopBr hK)
      have hor : String.mk T ≠ "or" := by
        intro hEq
        have hTd : T = ['o', 'r'] := congrArg String.data hEq
        rw [hTT] at hTd
        have hc0 : c0 = 'o' := (List.cons.injEq .. ▸ hTd).1
        rw [hc0] at hguard
        simp at hguard
      have hnone : objGet initFilter (String.mk T) = none := by
        apply objGet_initFilter_none _ hor
        all_goals {
          intro hEq
          first
          | exact hop (by rw [hTTop _ (by decide) hEq]; decide)
        }
      have hplF : protoLookup (String.mk T) = false := by
        cases hptt : protoLookup (String.mk T) with
        | false => rfl
        | true =>
          exfalso
          rcases protoLookup_cases hptt with h|h|h|h|h|h|h|h|h|h|h|h <;>
            (rw [hTTop _ (by decide) h] at hplop; exact absurd hplop (by decide))
      unfold parseFilterType
      rw [parseFilterTypeCore_matched hm,
        show initQueryData.filter = initFilter from rfl, hnone, hplF]
      rfl
  · intro hpl hcol1 hcol2 hval
    rcases protoLookup_cases hpl
      with rfl|rfl|rfl|rfl|rfl|rfl|rfl|rfl|rfl|rfl|rfl|rfl
    · have hs : ("filter[" ++ "constructor" ++ "][" ++ col ++ "]=" ++ value)
          = String.mk ("filter[".data ++ 'c' :: ("onstructor".data
            ++ ']' :: '[' :: (col.data ++ ']' :: '=' :: value.data))) := by
        rw [String.ext_iff]
        simp [String.data_append]
      rw [hs, show ("constructor" : String)
        = String.mk ('c' :: "onstructor".data) from rfl]
      exact parseFilterTypeProtoCase 'c' "onstructor".data col value
        (by decide) (by decide) (by decide) hcol1 hcol2 hval rfl rfl
    · have hs : ("filter[" ++ "__defineGetter__" ++ "][" ++ col ++ "]=" ++ value)
          = String.mk ("filter[".data ++ '_' :: ("_defineGetter__".data
            ++ ']' :: '[' :: (col.data ++ ']' :: '=' :: value.data))) := by
        rw [String.ext_iff]
        simp [String.data_append]
      rw [hs, show ("__defineGetter__" : String)
        = String.mk ('_' :: "_defineGetter__".data) from rfl]
      exact parseFilterTypeProtoCase '_' "_defineGetter__".data col value
        (by decide) (by decide) (by decide) hcol1 hcol2 hval rfl rfl
    · have hs : ("filter[" ++ "__defineSetter__" ++ "][" ++ col ++ "]=" ++ value)
          = String.mk ("filter[".data ++ '_' :: ("_defineSetter__".data
            ++ ']' :: '[' :: (col.data ++ ']' :: '=' :: value.data))) := by
        rw [String.ext_iff]
        simp [String.data_append]
      rw [hs, show ("__defineSetter__" : String)
        = String.mk ('_' :: "_defineSetter__".data) from rfl]
      exact parseFilterTypeProtoCase '_' "_defineSetter__".data col value
        (by decide) (by decide) (by decide) hcol1 hcol2 hval rfl rfl
    · have hs : ("filter[" ++ "hasOwnProperty" ++ "][" ++ col ++ "]=" ++ value)
          = String.mk ("filter[".data ++ 'h' :: ("asOwnProperty".data
            ++ ']' :: '[' :: (col.data ++ ']' :: '=' :: value.data))) := by
        rw [String.ext_iff]
        simp [String.data_append]
      rw [hs, show ("hasOwnProperty" : String)
        = String.mk ('h' :: "asOwnProperty".data) from rfl]
      exact parseFilterTypeProtoCase 'h' "asOwnProperty".data col value
        (by decide) (by decide) (by decide) hcol1 hcol2 hval rfl rfl
    · have hs : ("filter[" ++ "__lookupGetter__" ++ "][" ++ col ++ "]=" ++ value)
          = String.mk ("filter[".data ++ '_' :: ("_lookupGetter__".data
            ++ ']' :: '[' :: (col.data ++ ']' :: '=' :: value.data))) := by
        rw [String.ext_iff]
        simp [String.data_append]
      rw [hs, show ("__lookupGetter__" : String)
        = String.mk ('_' :: "_lookupGetter__".data) from rfl]
      exact parseFilterTypeProtoCase '_' "_lookupGetter__".data col value
        (by decide) (by decide) (by decide) hcol1 hcol2 hval rfl rfl
    · have hs : ("filter[" ++ "__lookupSetter__" ++ "][" ++ col ++ "]=" ++ value)
          = String.mk ("filter[".data ++ '_' :: ("_lookupSetter__".data
            ++ ']' :: '[' :: (col.data ++ ']' :: '=' :: value.data))) := by
        rw [String.ext_iff]
        simp [String.data_append]
      rw [hs, show ("__lookupSetter__" : String)
        = String.mk ('_' :: "_lookupSetter__".data) from rfl]
      exact parseFilterTypeProtoCase '_' "_lookupSetter__".data col value
        (by decide) (by decide) (by decide) hcol1 hcol2 hval rfl rfl
    · have hs : ("filter[" ++ "isPrototypeOf" ++ "][" ++ col ++ "]=" ++ value)
          = String.mk ("filter[".data ++ 'i' :: ("sPrototypeOf".data
            ++ ']' :: '[' :: (col.data ++ ']' :: '=' :: value.data))) := by
        rw [String.ext_iff]
        simp [String.data_append]
      rw [hs, show ("isPrototypeOf" : String)
        = String.mk ('i' :: "sPrototypeOf".data) from rfl]
      exact parseFilterTypeProtoCase 'i' "sPrototypeOf".data col value
        (by decide) (by decide) (by decide) hcol1 hcol2 hval rfl rfl
    · have hs : ("filter[" ++ "propertyIsEnumerable" ++ "][" ++ col ++ "]=" ++ value)
          = String.mk ("filter[".data ++ 'p' :: ("ropertyIsEnumerable".data
            ++ ']' :: '[' :: (col.data ++ ']' :: '=' :: value.data))) := by
        rw [String.ext_iff]
        simp [String.data_append]
      rw [hs, show ("propertyIsEnumerable" : String)
        = String.mk ('p' :: "ropertyIsEnumerable".data) from rfl]
      exact parseFilterTypeProtoCase 'p' "ropertyIsEnumerable".data col value
        (by decide) (by decide) (by decide) hcol1 hcol2 hval rfl rfl
    · have hs : ("filter[" ++ "toString" ++ "][" ++ col ++ "]=" ++ value)
          = String.mk ("filter[".data ++ 't' :: ("oString".data
            ++ ']' :: '[' :: (col.data ++ ']' :: '=' :: value.data))) := by
        rw [String.ext_iff]
        simp [String.data_append]
      rw [hs, show ("toString" : String)
        = String.mk ('t' :: "oString".data) from rfl]
      exact parseFilterTypeProtoCase 't' "oString".data col value
        (by decide) (by decide) (by decide) hcol1 hcol2 hval rfl rfl
    · have hs : ("filter[" ++ "valueOf" ++ "][" ++ col ++ "]=" ++ value)
          = String.mk ("filter[".data ++ 'v' :: ("alueOf".data
            ++ ']' :: '[' :: (col.data ++ ']' :: '=' :: value.data))) := by
        rw [String.ext_iff]
        simp [String.data_append]
      rw [hs, show ("valueOf" : String)
        = String.mk ('v' :: "alueOf".data) from rfl]
      exact parseFilterTypeProtoCase 'v' "alueOf".data col value
        (by decide) (by decide) (by decide) hcol1 hcol2 hval rfl rfl
    · have hs : ("filter[" ++ "__proto__" ++ "][" ++ col ++ "]=" ++ value)
          = String.mk ("filter[".data ++ '_' :: ("_proto__".data
            ++ ']' :: '[' :: (col.data ++ ']' :: '=' :: value.data))) := by
        rw [String.ext_iff]
        simp [String.data_append]
      rw [hs, show ("__proto__" : String)
        = String.mk ('_' :: "_proto__".data) from rfl]
      exact parseFilterTypeProtoCase '_' "_proto__".data col value
        (by decide) (by decide) (by decide) hcol1 hcol2 hval rfl rfl
    · have hs : ("filter[" ++ "toLocaleString" ++ "][" ++ col ++ "]=" ++ value)
          = String.mk ("filter[".data ++ 't' :: ("oLocaleString".data
            ++ ']' :: '[' :: (col.data ++ ']' :: '=' :: value.data))) := by
        rw [String.ext_iff]
        simp [String.data_append]
      rw [hs, show ("toLocaleString" : String)
        = String.mk ('t' :: "oLocaleString".data) from rfl]
      exact parseFilterTypeProtoCase 't' "oLocaleString".data col value
        (by decide) (by decide) (by decide) hcol1 hcol2 hval rfl rfl

/-- C6 witness: a reserved operator stores its entry, an unknown
non-prototype operator is ignored, and an inherited `Object.prototype`
operator passes the guard — throwing a `TypeError` on the non-writable
`toString.name`, and returning the descriptor unchanged for a plain expando
column on the shared builtin. -/
theorem parseFilterType_fresh_witness :
    parseFilterType "filter[gt][age]=17" initQueryData
        = .ok { initQueryData with
            filter := objSet initFilter "gt" (.obj [("age", .str "17")]) }
      ∧ parseFilterType "filter[zz][a]=b" initQueryData = .ok initQueryData
      ∧ parseFilterType "filter[toString][name]=x" initQueryData
        = .error .typeError
      ∧ parseFilterType "filter[toString][x]=y" initQueryData
        = .ok initQueryData := by
  refine ⟨?_, ?_, ?_, ?_⟩
  · exact (parseFilterType_fresh "gt" "age" "17").1
      (by decide) (by decide) (by decide) (by decide) (by decide)
  · exact (parseFilterType_fresh "zz" "a" "b").2.1
      (by decide) (by decide) (by decide)
  · exact ((parseFilterType_fresh "toString" "name" "x").2.2
      (by decide) (by decide) (by decide) (by decide)).trans (by rfl)
  · exact ((parseFilterType_fresh "toString" "x" "y").2.2
      (by decide) (by decide) (by decide) (by decide)).trans (by rfl)

/-! ## C3: the six operator keys survive every mutation -/

theorem aGet_aSet_self {α : Type} (o : List (String × α)) (k : String)
    (v : α) : aGet (aSet o k v) k = some v := by
  unfold aSet
  by_cases hp : (o.find? (fun p => p.1 == k)).isSome
  · rw [if_pos hp]
    induction o with
    | nil => simp at hp
    | cons a o' ih =>
      by_cases ha : a.1 == k
      · unfold aGet
        rw [List.map_cons, if_pos ha, List.find?_cons_of_pos _ (by simp)]
      · rw [List.find?_cons_of_neg _ (by simpa using ha)] at hp
        unfold aGet at ih ⊢
        rw [List.map_cons, if_neg ha, List.find?_cons_of_neg _ (by simpa using ha)]
        exact ih hp
  · rw [if_neg hp]
    have hnone : o.find? (fun p => p.1 == k) = none := by
      rcases hfind : o.find? (fun p => p.1 == k) with _ | x
      · exact hfind
      · rw [hfind] at hp; simp at hp
    unfold aGet
    rw [List.find?_append, hnone]
    simp


theorem find?_map_upd {α : Type} (o : List (String × α)) (k k' : String)
    (v : α) (h : k' ≠ k) :
    (o.map (fun p => if p.1 == k then (k, v) else p)).find?
        (fun p => p.1 == k')
      = o.find? (fun p => p.1 == k') := by
  induction o with
  | nil => rfl
  | cons a o' ih =>
    rw [List.map_cons]
    by_cases ha : (a.1 == k) = true
    · have hak : a.1 = k := by simpa using ha
      rw [if_pos ha,
        List.find?_cons_of_neg _ (by simp [Ne.symm h]),
        List.find?_cons_of_neg _ (by simp [hak, Ne.symm h])]
      exact ih
    · rw [if_neg ha]
      by_cases ha' : (a.1 == k') = true
      · simp only [List.find?, ha']
      · rw [List.find?_cons_of_neg _ (by simpa using ha'),
          List.find?_cons_of_neg _ (by simpa using ha')]
        exact ih

theorem aGet_aSet_ne {α : Type} (o : List (String × α)) (k k' : String)
    (v : α) (h : k' ≠ k) : aGet (aSet o k v) k' = aGet o k' := by
  unfold aSet
  by_cases hp : (o.find? (fun p => p.1 == k)).isSome
  · rw [if_pos hp]
    unfold aGet
    rw [find?_map_upd o k k' v h]
  · rw [if_neg hp]
    unfold aGet
    rw [List.find?_append]
    have hsing : List.find? (fun p => p.1 == k') [(k, v)] = none := by
      have hkk : ((k : String) == k') = false :=
        beq_eq_false_iff_ne.mpr (Ne.symm h)
      simp [List.find?, hkk]
    rw [hsing]
    cases ho : o.find? (fun p => p.1 == k') <;> simp [ho, Option.orElse]

theorem objGet_objSet_isSome {f : JObj} {k k' : String} {v : JVal}
    (hs : (objGet f k').isSome = true) :
    (objGet (objSet f k v) k').isSome = true := by
  by_cases hk : k' = k
  · subst hk
    rw [show objGet (objSet f k' v) k' = aGet (aSet f k' v) k' from rfl,
      aGet_aSet_self]
    rfl
  · rw [show objGet (objSet f k v) k' = aGet (aSet f k v) k' from rfl,
      aGet_aSet_ne f k k' v hk]
    exact hs

/-- The six operator keys are all present (bound to some value). -/
def hasSixKeys (o : JObj) : Bool :=
  (["like", "not", "lt", "lte", "gt", "gte"] : List String).all
    (fun k => (objGet o k).isSome)

theorem hasSixKeys_objSet {f : JObj} {k : String} {v : JVal}
    (h : hasSixKeys f = true) : hasSixKeys (objSet f k v) = true := by
  rw [hasSixKeys, List.all_eq_true] at h ⊢
  intro x hx
  exact objGet_objSet_isSome (h x hx)

/-- A present or-array element is an object carrying the six keys. -/
def elemOk : Option JVal → Bool
  | none => true
  | some (.obj e) => hasSixKeys e
  | some _ => false

/-- Per-entry shape of a reachable top-level filter object: the `or` key
holds an array of well-shaped elements (or a string after an equality
overwrite); every other key holds an object or a string. -/
def entryOk (p : String × JVal) : Bool :=
  if p.1 = "or" then
    match p.2 with
    | .arr l => l.all elemOk
    | .str _ => true
    | .obj _ => false
  else
    match p.2 with
    | .obj _ => true
    | .str _ => true
    | .arr _ => false

/-- Invariant of the top-level filter object. -/
def filterInv (f : JObj) : Bool := hasSixKeys f && f.all entryOk

theorem objGet_mem {f : JObj} {k : String} {v : JVal}
    (h : objGet f k = some v) : (k, v) ∈ f := by
  unfold objGet aGet at h
  rcases hf : f.find? (fun p => p.1 == k) with _ | q
  · rw [hf] at h; simp at h
  · rw [hf] at h
    have hq := List.find?_some hf
    have hmem : q ∈ f := List.mem_of_find?_eq_some hf
    obtain ⟨q1, q2⟩ := q
    simp only [Option.some.injEq] at h
    have h1 : q1 = k := by simpa using hq
    rw [← h1, ← h]
    exact hmem

theorem all_objSet {f : JObj} {k : String} {v : JVal}
    (hall : f.all entryOk = true) (hkv : entryOk (k, v) = true) :
    (objSet f k v).all entryOk = true := by
  unfold objSet aSet
  by_cases hp : (f.find? (fun p => p.1 == k)).isSome
  · rw [if_pos hp]
    rw [List.all_eq_true] at hall ⊢
    intro x hx
    obtain ⟨p, hpmem, hpx⟩ := List.mem_map.mp hx
    by_cases hpk : (p.1 == k) = true
    · rw [if_pos hpk] at hpx
      rw [← hpx]
      exact hkv
    · rw [if_neg hpk] at hpx
      rw [← hpx]
      exact hall p hpmem
  · rw [if_neg hp]
    rw [List.all_append]
    simp only [Bool.and_eq_true]
    exact ⟨hall, by simpa using hkv⟩

theorem entryOk_of_mem {f : JObj} {k : String} {v : JVal}
    (hall : f.all entryOk = true) (h : objGet f k = some v) :
    entryOk (k, v) = true := by
  rw [List.all_eq_true] at hall
  exact hall (k, v) (objGet_mem h)

/-- An entry whose value is an array can only be the `or` entry, and its
elements are well shaped. -/
theorem arr_entry_is_or {f : JObj} {k : String} {l : List (Option JVal)}
    (hall : f.all entryOk = true) (h : objGet f k = some (.arr l)) :
    k = "or" ∧ l.all elemOk = true := by
  have he := entryOk_of_mem hall h
  unfold entryOk at he
  by_cases hk : k = "or"
  · rw [if_pos hk] at he
    exact ⟨hk, he⟩
  · rw [if_neg hk] at he
    simp at he

/-- The `or` entry can never be an object. -/
theorem or_entry_not_obj {f : JObj} {e : JObj}
    (hall : f.all entryOk = true) (h : objGet f "or" = some (.obj e)) :
    False := by
  have he := entryOk_of_mem hall h
  unfold entryOk at he
  simp at he

theorem filterInv_objSet_str {f : JObj} (k v : String)
    (h : filterInv f = true) : filterInv (objSet f k (.str v)) = true := by
  rw [filterInv, Bool.and_eq_true] at h ⊢
  refine ⟨hasSixKeys_objSet h.1, all_objSet h.2 ?_⟩
  unfold entryOk
  by_cases hk : k = "or" <;> simp [hk]

theorem filterInv_parseFilterCore (s : String) {f : JObj}
    (h : filterInv f = true) : filterInv (parseFilterCore s f) = true := by
  simp only [parseFilterCore]
  exact filterInv_objSet_str _ _ h

theorem hasSixKeys_parseFilterCore (s : String) {f : JObj}
    (h : hasSixKeys f = true) : hasSixKeys (parseFilterCore s f) = true := by
  simp only [parseFilterCore]
  exact hasSixKeys_objSet h

theorem parseFilterTypeCore_ok_keys {s : String} {f f' : JObj}
    (hok : parseFilterTypeCore s f = .ok f') :
    ∀ k, (objGet f k).isSome = true → (objGet f' k).isSome = true := by
  simp only [parseFilterTypeCore] at hok
  rcases hm : matchFilterType s.data with _ | ⟨T, B, C⟩ <;> rw [hm] at hok <;>
    dsimp only [] at hok
  case none =>
    rcases hg : objGet f s with _ | v0 <;> rw [hg] at hok <;>
      dsimp only [] at hok
    · by_cases hp : protoLookup s = true
      · rw [if_pos hp] at hok
        by_cases hw : protoWriteThrows s s = true
        · rw [if_pos hw] at hok
          simp at hok
        · rw [if_neg hw] at hok
          rw [← Except.ok.inj hok]; exact fun _ hk => hk
      · rw [if_neg hp] at hok
        rw [← Except.ok.inj hok]; exact fun _ hk => hk
    · by_cases ht : jsTruthy v0 = true
      · rw [if_pos ht] at hok
        cases v0 with
        | str st => simp at hok
        | obj e =>
          rw [← Except.ok.inj hok]
          exact fun k hk => objGet_objSet_isSome hk
        | arr el =>
          rcases hn : s.toNat? with _ | i <;> rw [hn] at hok
          · rw [← Except.ok.inj hok]; exact fun _ hk => hk
          · rw [← Except.ok.inj hok]
            exact fun k hk => objGet_objSet_isSome hk
      · rw [if_neg ht] at hok
        rw [← Except.ok.inj hok]; exact fun _ hk => hk
  case some =>
    rcases hg : objGet f (String.mk T) with _ | v0 <;> rw [hg] at hok <;>
      dsimp only [] at hok
    · by_cases hp : protoLookup (String.mk T) = true
      · rw [if_pos hp] at hok
        by_cases hw : protoWriteThrows (String.mk T) (String.mk B) = true
        · rw [if_pos hw] at hok
          simp at hok
        · rw [if_neg hw] at hok
          rw [← Except.ok.inj hok]; exact fun _ hk => hk
      · rw [if_neg hp] at hok
        rw [← Except.ok.inj hok]; exact fun _ hk => hk
    · by_cases ht : jsTruthy v0 = true
      · rw [if_pos ht] at hok
        cases v0 with
        | str st => simp at hok
        | obj e =>
          rw [← Except.ok.inj hok]
          exact fun k hk => objGet_objSet_isSome hk
        | arr el =>
          rcases hn : (String.mk B).toNat? with _ | i <;> rw [hn] at hok
          · rw [← Except.ok.inj hok]; exact fun _ hk => hk
          · rw [← Except.ok.inj hok]
            exact fun k hk => objGet_objSet_isSome hk
      · rw [if_neg ht] at hok
        rw [← Except.ok.inj hok]; exact fun _ hk => hk

theorem hasSixKeys_parseFilterTypeCore {s : String} {f f' : JObj}
    (hok : parseFilterTypeCore s f = .ok f') (h : hasSixKeys f = true) :
    hasSixKeys f' = true := by
  rw [hasSixKeys, List.all_eq_true] at h ⊢
  intro x hx
  exact parseFilterTypeCore_ok_keys hok x (h x hx)

theorem filterInv_parseFilterTypeCore {s : String} {T B C : List Char}
    {f f' : JObj} (hm : matchFilterType s.data = some (T, B, C))
    (hok : parseFilterTypeCore s f = .ok f') (h : filterInv f = true) :
    filterInv f' = true := by
  rw [filterInv, Bool.and_eq_true] at h
  obtain ⟨h1, h2⟩ := h
  rw [parseFilterTypeCore_matched hm] at hok
  rcases hg : objGet f (String.mk T) with _ | v0 <;> rw [hg] at hok <;>
    dsimp only [] at hok
  · by_cases hp : protoLookup (String.mk T) = true
    · rw [if_pos hp] at hok
      by_cases hw : protoWriteThrows (String.mk T) (String.mk B) = true
      · rw [if_pos hw] at hok
        simp at hok
      · rw [if_neg hw] at hok
        rw [← Except.ok.inj hok]
        rw [filterInv, Bool.and_eq_true]
        exact ⟨h1, h2⟩
    · rw [if_neg hp] at hok
      rw [← Except.ok.inj hok]
      rw [filterInv, Bool.and_eq_true]
      exact ⟨h1, h2⟩
  · by_cases ht : jsTruthy v0 = true
    · rw [if_pos ht] at hok
      cases v0 with
      | str st => simp at hok
      | obj e =>
        rw [← Except.ok.inj hok]
        have hne : String.mk T ≠ "or" := by
          intro hkk
          exact or_entry_not_obj h2 (hkk ▸ hg)
        rw [filterInv, Bool.and_eq_true]
        refine ⟨hasSixKeys_objSet h1, all_objSet h2 ?_⟩
        unfold entryOk
        rw [if_neg hne]
      | arr el =>
        obtain ⟨c0, A, hTT, hguard, _⟩ := matchFilterType_sound hm
        have hor := (arr_entry_is_or h2 hg).1
        have hTd : T = ['o', 'r'] := congrArg String.data hor
        rw [hTT] at hTd
        have hc0 : c0 = 'o' := (List.cons.injEq .. ▸ hTd).1
        rw [hc0] at hguard
        simp at hguard
    · rw [if_neg ht] at hok
      rw [← Except.ok.inj hok]
      rw [filterInv, Bool.and_eq_true]
      exact ⟨h1, h2⟩

theorem mergeStep_obj_keys {e : JObj} {k : String} {v t' : JVal}
    (h : mergeStep (.obj e) k v = .ok t') :
    ∃ e', t' = .obj e'
      ∧ ∀ k2, (objGet e k2).isSome = true → (objGet e' k2).isSome = true := by
  cases v with
  | obj inner =>
    simp only [mergeStep] at h
    cases hme : mergeEntries
        (match objGet e k with | some c => c | none => .obj []) inner with
    | error e2 => rw [hme, except_error_bind] at h; simp at h
    | ok m =>
      rw [hme, except_ok_bind] at h
      exact ⟨objSet e k m, (Except.ok.inj h).symm,
        fun k2 hk2 => objGet_objSet_isSome hk2⟩
  | str st =>
    simp only [mergeStep, assignKey] at h
    exact ⟨objSet e k (.str st), (Except.ok.inj h).symm,
      fun k2 hk2 => objGet_objSet_isSome hk2⟩
  | arr l =>
    simp only [mergeStep, assignKey] at h
    exact ⟨objSet e k (.arr l), (Except.ok.inj h).symm,
      fun k2 hk2 => objGet_objSet_isSome hk2⟩

theorem mergeEntries_obj_keys {entries : List (String × JVal)} {e : JObj}
    {t' : JVal} (h : mergeEntries (.obj e) entries = .ok t') :
    ∃ e', t' = .obj e'
      ∧ ∀ k2, (objGet e k2).isSome = true → (objGet e' k2).isSome = true := by
  induction entries generalizing e with
  | nil =>
    rw [mergeEntries] at h
    exact ⟨e, (Except.ok.inj h).symm, fun _ hk => hk⟩
  | cons kv rest ih =>
    obtain ⟨k, v⟩ := kv
    rw [mergeEntries] at h
    cases hms : mergeStep (.obj e) k v with
    | error e2 => rw [hms, except_error_bind] at h; simp at h
    | ok t1 =>
      rw [hms, except_ok_bind] at h
      obtain ⟨e1, ht1, hkeys1⟩ := mergeStep_obj_keys hms
      rw [ht1] at h
      obtain ⟨e', ht', hkeys2⟩ := ih h
      exact ⟨e', ht', fun k2 hk2 => hkeys2 k2 (hkeys1 k2 hk2)⟩

theorem all_arrSet {l : List (Option JVal)} {i : Nat} {v : JVal}
    (hall : l.all elemOk = true) (hv : elemOk (some v) = true) :
    (arrSet l i v).all elemOk = true := by
  unfold arrSet
  by_cases hi : i < l.length
  · rw [if_pos hi]
    rw [List.all_eq_true] at hall ⊢
    intro x hx
    rcases List.mem_or_eq_of_mem_set hx with hmem | rfl
    · exact hall x hmem
    · exact hv
  · rw [if_neg hi]
    rw [List.all_eq_true] at hall ⊢
    intro x hx
    rcases List.mem_append.mp hx with h1 | h2
    · rcases List.mem_append.mp h1 with h3 | h4
      · exact hall x h3
      · rw [List.eq_of_mem_replicate h4]; rfl
    · rw [List.mem_singleton.mp h2]; exact hv

theorem elemOk_arrGet {l : List (Option JVal)} {i : Nat} {cur : JVal}
    (hall : l.all elemOk = true) (h : arrGet l i = some cur) :
    elemOk (some cur) = true := by
  unfold arrGet at h
  have hmem : some cur ∈ l := by
    rcases hg : l[i]? with _ | x
    · rw [List.getD_eq_getElem?_getD, hg] at h; simp at h
    · rw [List.getD_eq_getElem?_getD, hg] at h
      simp only [Option.getD_some] at h
      exact h ▸ List.getElem?_mem hg
  rw [List.all_eq_true] at hall
  exact hall _ hmem

theorem filterInv_orInsert {d d' : QueryData} {idx : Nat} {inner : JObj}
    (hok : orInsert d idx inner = .ok d') (hsix : hasSixKeys inner = true)
    (h : filterInv d.filter = true) : filterInv d'.filter = true := by
  rw [filterInv, Bool.and_eq_true] at h
  obtain ⟨h1, h2⟩ := h
  unfold orInsert at hok
  rcases hg : objGet d.filter "or" with _ | v <;> rw [hg] at hok
  · simp at hok
  · cases v with
    | str st =>
      dsimp only [] at hok
      by_cases hi : idx < st.length
      · rw [if_pos hi] at hok
        cases hdm : deepMerge (.str (String.mk [st.data.getD idx ' ']))
            (.obj inner) with
        | error e2 => rw [hdm, except_error_bind] at hok; simp at hok
        | ok m => rw [hdm, except_ok_bind] at hok; simp at hok
      · rw [if_neg hi] at hok; simp at hok
    | obj oe => exact (or_entry_not_obj h2 hg).elim
    | arr el =>
      dsimp only [] at hok
      have hel : el.all elemOk = true := (arr_entry_is_or h2 hg).2
      rcases ha : arrGet el idx with _ | cur <;> rw [ha] at hok <;>
        dsimp only [] at hok
      · rw [← Except.ok.inj hok]
        show filterInv (objSet d.filter "or" (.arr (arrSet el idx (.obj inner))))
          = true
        rw [filterInv, Bool.and_eq_true]
        refine ⟨hasSixKeys_objSet h1, all_objSet h2 ?_⟩
        unfold entryOk
        rw [if_pos rfl]
        exact all_arrSet hel (by simpa [elemOk] using hsix)
      · have hcur : elemOk (some cur) = true := elemOk_arrGet hel ha
        cases cur with
        | str st2 => simp [elemOk] at hcur
        | arr l2 => simp [elemOk] at hcur
        | obj ce =>
          cases hdm : deepMerge (.obj ce) (.obj inner) with
          | error e2 => rw [hdm, except_error_bind] at hok; simp at hok
          | ok m =>
            rw [hdm, except_ok_bind] at hok
            rw [← Except.ok.inj hok]
            have hdm' : mergeEntries (.obj ce) inner = .ok m := hdm
            obtain ⟨e', hm', hkeys⟩ := mergeEntries_obj_keys hdm'
            show filterInv (objSet d.filter "or" (.arr (arrSet el idx m)))
              = true
            rw [filterInv, Bool.and_eq_true]
            refine ⟨hasSixKeys_objSet h1, all_objSet h2 ?_⟩
            unfold entryOk
            rw [if_pos rfl]
            apply all_arrSet hel
            rw [hm']
            show hasSixKeys e' = true
            have hce : hasSixKeys ce = true := by simpa [elemOk] using hcur
            rw [hasSixKeys, List.all_eq_true] at hce ⊢
            intro x hx
            exact hkeys x (hce x hx)

theorem filterInv_parseFilterWithOr {s : String} {d d' : QueryData}
    (hok : parseFilterWithOr s d = .ok d')
    (h : filterInv d.filter = true) : filterInv d'.filter = true := by
  simp only [parseFilterWithOr] at hok
  rcases hmo : matchFilterWithOr s.data with _ | ⟨idx, frag⟩ <;>
    rw [hmo] at hok <;> dsimp only [] at hok
  · rw [← Except.ok.inj hok]; exact h
  · by_cases hip : (matchPlainFilter
        (String.mk ("filter".data ++ frag)).data).isSome = true
    · rw [if_pos hip, except_ok_bind] at hok
      exact filterInv_orInsert hok
        (hasSixKeys_parseFilterCore _ (by decide)) h
    · rw [if_neg hip] at hok
      cases hit : parseFilterTypeCore (String.mk ("filter".data ++ frag))
          innerFilterSeed with
      | error e2 => rw [hit, except_error_bind] at hok; simp at hok
      | ok inner =>
        rw [hit, except_ok_bind] at hok
        exact filterInv_orInsert hok
          (hasSixKeys_parseFilterTypeCore hit (by decide)) h

theorem filterInv_applyIf {c : Bool} {F : QueryData → QueryData}
    {d : QueryData}
    (hF : filterInv d.filter = true → filterInv (F d).filter = true)
    (h : filterInv d.filter = true) :
    filterInv (applyIf c F d).filter = true := by
  unfold applyIf
  by_cases hc : c = true
  · rw [if_pos hc]; exact hF h
  · rw [if_neg hc]; exact h

theorem applyIfE_inv {c : Bool} {F : QueryData → Except JsErr QueryData}
    {d d' : QueryData} (hok : applyIfE c F d = .ok d')
    (hF : c = true → ∀ d'', F d = .ok d'' →
      filterInv d.filter = true → filterInv d''.filter = true)
    (h : filterInv d.filter = true) : filterInv d'.filter = true := by
  unfold applyIfE at hok
  by_cases hc : c = true
  · rw [if_pos hc] at hok
    exact hF hc d' hok h
  · rw [if_neg hc] at hok
    rw [← Except.ok.inj hok]
    exact h

theorem filterInv_parseFilterType_w {q : String} {d d'' : QueryData}
    (hmt : (matchFilterType q.data).isSome = true)
    (hfd : parseFilterType q d = .ok d'')
    (hh : filterInv d.filter = true) : filterInv d''.filter = true := by
  obtain ⟨x, hm⟩ := Option.isSome_iff_exists.mp hmt
  obtain ⟨T, B, C⟩ := x
  unfold parseFilterType at hfd
  cases hcore : parseFilterTypeCore q d.filter with
  | error e => rw [hcore] at hfd; simp [Except.map] at hfd
  | ok f' =>
    rw [hcore] at hfd
    simp only [Except.map] at hfd
    rw [← Except.ok.inj hfd]
    exact filterInv_parseFilterTypeCore hm hcore hh

theorem parseFields_filter {q : String} {d d' : QueryData}
    (h : parseFields q d = .ok d') : d'.filter = d.filter := by
  simp only [parseFields] at h
  split at h
  · simp at h
  · rw [← Except.ok.inj h]

theorem filterInv_delegateToParser {q : String} {d d' : QueryData}
    (hok : delegateToParser q d = .ok d')
    (h : filterInv d.filter = true) : filterInv d'.filter = true := by
  simp only [delegateToParser] at hok
  have h1 : filterInv (applyIf (testInclude q.data) (parseInclude q) d).filter
      = true := filterInv_applyIf (fun hh => hh) h
  cases h2k : applyIfE (matchFields q.data).isSome (parseFields q)
      (applyIf (testInclude q.data) (parseInclude q) d) with
  | error e => rw [h2k, except_error_bind] at hok; simp at hok
  | ok d2 =>
    rw [h2k, except_ok_bind] at hok
    have h2 : filterInv d2.filter = true :=
      applyIfE_inv h2k
        (fun _ d'' hfd hh => by rw [parseFields_filter hfd]; exact hh) h1
    have h5 : filterInv (applyIf (matchPlainFilter q.data).isSome
        (parseFilter q) (applyIf (testSort q.data) (parseSort q)
          (applyIf (matchPage q.data).isSome (parsePage q) d2))).filter
        = true :=
      filterInv_applyIf (fun hh => filterInv_parseFilterCore q hh)
        (filterInv_applyIf (fun hh => hh)
          (filterInv_applyIf (fun hh => hh) h2))
    cases h6k : applyIfE (matchFilterType q.data).isSome (parseFilterType q)
        (applyIf (matchPlainFilter q.data).isSome (parseFilter q)
          (applyIf (testSort q.data) (parseSort q)
            (applyIf (matchPage q.data).isSome (parsePage q) d2))) with
    | error e => rw [h6k, except_error_bind] at hok; simp at hok
    | ok d6 =>
      rw [h6k, except_ok_bind] at hok
      have h6 : filterInv d6.filter = true :=
        applyIfE_inv h6k
          (fun hc d'' hfd hh => filterInv_parseFilterType_w hc hfd hh) h5
      cases h7k : applyIfE (matchFilterWithOr q.data).isSome
          (parseFilterWithOr q) d6 with
      | error e => rw [h7k, except_error_bind] at hok; simp at hok
      | ok d7 =>
        rw [h7k, except_ok_bind] at hok
        have h7 : filterInv d7.filter = true :=
          applyIfE_inv h7k
            (fun _ d'' hfd hh => filterInv_parseFilterWithOr hfd hh) h6
        rw [← Except.ok.inj hok]
        exact h7

theorem filterInv_delegate_fold {frs : List String} {d d' : QueryData}
    (hok : frs.foldlM (fun acc q2 => delegateToParser q2 acc) d = .ok d')
    (h : filterInv d.filter = true) : filterInv d'.filter = true := by
  induction frs generalizing d with
  | nil =>
    rw [List.foldlM_nil] at hok
    rw [← Except.ok.inj hok]
    exact h
  | cons q2 rest ih =>
    rw [List.foldlM_cons] at hok
    cases hdq : delegateToParser q2 d with
    | error e => rw [hdq, except_error_bind] at hok; simp at hok
    | ok d1 =>
      rw [hdq, except_ok_bind] at hok
      exact ih hok (filterInv_delegateToParser hdq h)

theorem filterInv_parseQueryParameters {qs : String} {d d' : QueryData}
    (hok : parseQueryParameters qs d = .ok d')
    (h : filterInv d.filter = true) : filterInv d'.filter = true := by
  simp only [parseQueryParameters] at hok
  cases hdec : ((splitOnCharL '&' qs.data).map String.mk).mapM
      decodeURIComponent with
  | error e => rw [hdec, except_error_bind] at hok; simp at hok
  | ok decoded =>
    rw [hdec, except_ok_bind] at hok
    exact filterInv_delegate_fold hok h

theorem parseEndpoint_queryData {p : String} {rd0 rd : RequestData}
    (h : parseEndpoint p rd0 = .ok rd) : rd.queryData = rd0.queryData := by
  simp only [parseEndpoint] at h
  split at h
  · split at h
    · simp at h
    · split at h
      · simp at h
      · rw [← Except.ok.inj h]
  · rw [← Except.ok.inj h]

/-- C3 (amended): on every successful parse, the top-level filter object and
every present element of its `or` array contain all six operator keys
(`like, not, lt, lte, gt, gte`); an operator key's value may have been
overwritten from a mapping to a string by an equality fragment naming it,
and `or` elements may carry an `or` key the same way. -/
theorem filter_six_keys (url : String) (d : RequestData)
    (h : parseRequest url = .ok d) :
    filterInv d.queryData.filter = true := by
  replace h : (do
      let rd ← parseEndpoint (pathPart url) initRequestData
      match ((splitOnCharL '?' url.data).map String.mk).get? 1 with
      | some q =>
        if q.data.isEmpty then Except.ok rd
        else do
          let qd ← parseQueryParameters q rd.queryData
          Except.ok { rd with queryData := qd }
      | none => Except.ok rd) = Except.ok d := h
  cases hpe : parseEndpoint (pathPart url) initRequestData with
  | error e => rw [hpe, except_error_bind] at h; simp at h
  | ok rd =>
    rw [hpe, except_ok_bind] at h
    have hinv0 : filterInv rd.queryData.filter = true := by
      rw [parseEndpoint_queryData hpe]
      decide
    rcases hq : ((splitOnCharL '?' url.data).map String.mk).get? 1 with _ | q
    · rw [hq] at h
      rw [← Except.ok.inj h]
      exact hinv0
    · rw [hq] at h
      dsimp only [] at h
      by_cases he : q.data.isEmpty
      · rw [if_pos he] at h
        rw [← Except.ok.inj h]
        exact hinv0
      · rw [if_neg he] at h
        cases hqp : parseQueryParameters q rd.queryData with
        | error e => rw [hqp, except_error_bind] at h; simp at h
        | ok qd =>
          rw [hqp, except_ok_bind] at h
          rw [← Except.ok.inj h]
          exact filterInv_parseQueryParameters hqp hinv0

/-- The descriptor `parseRequest "a?filter[gt]=5"` returns: the equality
fragment's column name `gt` collides with the reserved operator key and
overwrites its map with a plain string. -/
def gtOverwriteDescriptor : RequestData :=
  { resourceType := some "a", identifier := none, relationships := false,
    relationshipType := none,
    queryData :=
      { incl := [], fields := [], sort := [], page := [],
        filter := [("or", .arr []), ("like", .obj []), ("not", .obj []),
          ("lt", .obj []), ("lte", .obj []), ("gt", .str "5"),
          ("gte", .obj [])] } }

/-- C3 counterexample: after `a?filter[gt]=5` the returned top-level filter
binds the operator key `gt` to the string `"5"`, not to a mapping. -/
theorem filter_gt_overwritten :
    parseRequest "a?filter[gt]=5" = Except.ok gtOverwriteDescriptor
      ∧ objGet gtOverwriteDescriptor.queryData.filter "gt"
        = some (.str "5") :=
  ⟨by rfl, by rfl⟩

/-- The descriptor `parseRequest "a"` returns. -/
def c3WitnessDescriptor : RequestData :=
  { resourceType := some "a", identifier := none, relationships := false,
    relationshipType := none, queryData := initQueryData }

/-- C3 witness: the amended invariant at the concrete URL `a`. -/
theorem filter_six_keys_witness :
    filterInv c3WitnessDescriptor.queryData.filter = true :=
  filter_six_keys "a" c3WitnessDescriptor (by rfl)

end JsonApi
